import Mathlib

/-!
Verification of the session orchestration engine of the voice-agent backend
(`src/websocket.js` together with the streaming wrappers in
`src/services/openai.js` and `src/services/tts.js`).

Strings are modelled as `List Char`.  JavaScript's `trim`, `toLowerCase`,
`includes`, `startsWith` and `substring` are embedded as executable list
functions.  The per-connection closure state of `initWebSocketServer` is
embedded as a `SessionState` record, and every callback (inbound protocol
message, Deepgram transcript, the 100 ms silence-check interval, the buffer
sub-interval, LLM token/completion/error, TTS chunk/end, socket close) is a
state-transition function; `step` dispatches an `Event` to its handler.
-/

namespace VoiceAgent

/-- Whitespace test used by JavaScript `trim` (space, tab, CR, LF). -/
def isWS (c : Char) : Bool := c.isWhitespace

/-- JavaScript `s.trim()`: drop whitespace from both ends. -/
def trimStr (l : List Char) : List Char :=
  ((l.dropWhile isWS).reverse.dropWhile isWS).reverse

/-- JavaScript `s.toLowerCase()`, character-wise (basic-latin lowering). -/
def lowerStr (l : List Char) : List Char := l.map Char.toLower

/-- JavaScript `hay.includes(needle)`: substring containment. -/
def subOf (needle : List Char) : List Char → Bool
  | [] => needle.isEmpty
  | c :: t => needle.isPrefixOf (c :: t) || subOf needle t

/-- The transcript-merge of `startDeepgramStream`'s `onTranscript`
(`src/websocket.js` lines 282–347): combine the stored pending transcript
with a freshly arrived (already trimmed) Deepgram hypothesis. -/
def newContainsExisting (pendingTranscript trimmedText : List Char) : Bool :=
  subOf (trimStr (lowerStr pendingTranscript)) (trimStr (lowerStr trimmedText))

def existingContainsNew (pendingTranscript trimmedText : List Char) : Bool :=
  subOf (trimStr (lowerStr trimmedText)) (trimStr (lowerStr pendingTranscript))

/-- The last (up to) ten characters of the lowered, trimmed pending
transcript (`existingLower.substring(Math.max(0, existingLower.length - 10))`). -/
def existingEnd (pendingTranscript : List Char) : List Char :=
  (trimStr (lowerStr pendingTranscript)).drop
    ((trimStr (lowerStr pendingTranscript)).length - 10)

/-- The first (up to) ten characters of the lowered, trimmed incoming
transcript (`newLower.substring(0, Math.min(10, newLower.length))`). -/
def newStart (trimmedText : List Char) : List Char :=
  (trimStr (lowerStr trimmedText)).take 10

def mergeTranscript (pendingTranscript trimmedText : List Char) : List Char :=
  if pendingTranscript.isEmpty then trimmedText
  else if trimmedText.length > pendingTranscript.length ∧
      newContainsExisting pendingTranscript trimmedText then
    trimmedText
  else if trimmedText.length > pendingTranscript.length then
    if ¬newContainsExisting pendingTranscript trimmedText ∧
        ¬existingContainsNew pendingTranscript trimmedText then
      trimStr (pendingTranscript ++ ' ' :: trimmedText)
    else trimmedText
  else if newContainsExisting pendingTranscript trimmedText ∧
      trimmedText.length ≥ pendingTranscript.length then
    trimmedText
  else if existingContainsNew pendingTranscript trimmedText ∧
      pendingTranscript.length > trimmedText.length then
    pendingTranscript
  else if trimmedText.length = pendingTranscript.length ∧
      trimmedText ≠ pendingTranscript then
    if newContainsExisting pendingTranscript trimmedText then trimmedText
    else pendingTranscript
  else if trimmedText.length < pendingTranscript.length ∧
      ¬newContainsExisting pendingTranscript trimmedText ∧
      ¬existingContainsNew pendingTranscript trimmedText then
    if ¬subOf (newStart trimmedText) (existingEnd pendingTranscript) ∧
        ¬subOf (existingEnd pendingTranscript) (newStart trimmedText) then
      trimStr (pendingTranscript ++ ' ' :: trimmedText)
    else pendingTranscript
  else pendingTranscript

/-- Modelled from the spec: the ten-step merge algorithm of spec §4.1,
written exactly in the order and wording of the spec (containment checks
case-insensitive on trimmed strings; appends written `pending + " " +
incoming` with no further normalisation). -/
def specMergeTranscript (pending incoming : List Char) : List Char :=
  if pending.isEmpty then incoming
  else if incoming.length > pending.length ∧ newContainsExisting pending incoming then
    incoming
  else if incoming.length > pending.length ∧ ¬newContainsExisting pending incoming ∧
      ¬existingContainsNew pending incoming then
    pending ++ ' ' :: incoming
  else if incoming.length > pending.length then incoming
  else if newContainsExisting pending incoming ∧ incoming.length ≥ pending.length then
    incoming
  else if existingContainsNew pending incoming ∧ pending.length > incoming.length then
    pending
  else if incoming.length = pending.length ∧ incoming ≠ pending ∧
      newContainsExisting pending incoming then
    incoming
  else if incoming.length < pending.length ∧ ¬newContainsExisting pending incoming ∧
      ¬existingContainsNew pending incoming then
    if ¬subOf (newStart incoming) (existingEnd pending) ∧
        ¬subOf (existingEnd pending) (newStart incoming) then
      pending ++ ' ' :: incoming
    else pending
  else pending

/-! ### The per-connection session state

One `SessionState` embeds the closure variables of the `wss.on('connection')
handler in `src/websocket.js`.  LLM streams (`createOpenAIStream` handles) and
TTS streams (`createTTSStream` handles) are given fresh numeric ids; a handle's
`cancel()` sets its `cancelled` flag, and — matching the `AbortController`
semantics of `src/services/openai.js` — a cancelled, completed or errored
stream never fires `onToken`/`onComplete`/`onError` again. -/

inductive StatusState where
  | connected | listening | thinking | processing | speaking | idle | interrupted | errorState
deriving DecidableEq, Repr

inductive ErrCode where
  | llmError | sttError
deriving DecidableEq, Repr

inductive Mode where
  | voice | chat
deriving DecidableEq, Repr

inductive Role where
  | user | assistant
deriving DecidableEq, Repr

/-- One outbound WebSocket frame, as built by `sendMessage(type, payload)`. -/
inductive OutMsg where
  | status (state : StatusState) (error : Option ErrCode)
  | transcript (text : List Char) (isFinal : Bool)
  | agentText (token : List Char) (clear : Bool)
  | agentAudio
  | conversationTurn (mode : Mode) (userText replyText : List Char)
deriving DecidableEq, Repr

/-- Which call site created an LLM stream: `processUserMessage` (voice
transcript or chat message) or `finalizeTranscript`. -/
inductive StreamKind where
  | viaProcess | viaFinalize
deriving DecidableEq, Repr

/-- One `createOpenAIStream` handle, with the context its callbacks close over. -/
structure LLMStream where
  id : Nat
  userText : List Char
  chatMode : Bool
  kind : StreamKind
  cancelled : Bool
  completed : Bool
  errored : Bool
deriving DecidableEq, Repr

/-- One `createTTSStream` handle. -/
structure TTSStream where
  id : Nat
  cancelled : Bool
  ended : Bool
deriving DecidableEq, Repr

/-- One `bufferCheckInterval` spawned inside the silence-detection interval
(`src/websocket.js` lines 565–656), with its closure state. -/
structure BufTimer where
  id : Nat
  bufferElapsed : Nat
  lastTranscriptLength : Nat
  lastFinalTime : Option Nat
  transcriptAtSilence : List Char
deriving DecidableEq, Repr

/-- The per-connection closure state of `initWebSocketServer`. -/
structure SessionState where
  wsOpen : Bool
  outbox : List OutMsg
  conversationHistory : List (Role × List Char)
  isRecording : Bool
  dgPresent : Bool
  dgOpen : Bool
  lastTranscriptTime : Option Nat
  lastAudioChunkTime : Option Nat
  pendingTranscript : Option (List Char)
  lastFinalizedTranscript : Option (List Char)
  lastSentTranscript : Option (List Char)
  silenceCheckInterval : Bool
  silenceTimer : Bool
  llmCallPending : Bool
  receivedFinalTranscript : Bool
  llmStreams : List LLMStream
  ttsStreams : List TTSStream
  currentLLMStream : Option Nat
  currentTTSStream : Option Nat
  bufferTimers : List BufTimer
  nextStreamId : Nat
  nextBufId : Nat
deriving Repr

/-- `sendMessage(type, payload)`: emit a frame only when
`ws.readyState === WebSocket.OPEN`. -/
def sendMessage (s : SessionState) (m : OutMsg) : SessionState :=
  if s.wsOpen then { s with outbox := s.outbox ++ [m] } else s

/-- The flag-setting map used by `cancel` on completion handles. -/
def cancelAtLLM (i : Nat) (st : LLMStream) : LLMStream :=
  if st.id = i then { st with cancelled := true } else st

def cancelAtTTS (i : Nat) (tt : TTSStream) : TTSStream :=
  if tt.id = i then { tt with cancelled := true } else tt

/-- Mark a completion handle as finished (its `onComplete` has run). -/
def completeAtLLM (i : Nat) (st : LLMStream) : LLMStream :=
  if st.id = i then { st with completed := true } else st

/-- Mark a completion handle as failed (its `onError` has run). -/
def errorAtLLM (i : Nat) (st : LLMStream) : LLMStream :=
  if st.id = i then { st with errored := true } else st

/-- Mark a synthesis handle as finished (its `onEnd` has run). -/
def endAtTTS (i : Nat) (tt : TTSStream) : TTSStream :=
  if tt.id = i then { tt with ended := true } else tt

/-- `currentLLMStream.cancel(); currentLLMStream = null` (guarded on the
handle existing), as in `processUserMessage` and `finalizeTranscript`. -/
def cancelLLM (s : SessionState) : SessionState :=
  match s.currentLLMStream with
  | some i =>
      { s with
        llmStreams := s.llmStreams.map (cancelAtLLM i),
        currentLLMStream := none }
  | none => s

def cancelTTS (s : SessionState) : SessionState :=
  match s.currentTTSStream with
  | some i =>
      { s with
        ttsStreams := s.ttsStreams.map (cancelAtTTS i),
        currentTTSStream := none }
  | none => s

/-- The cancel calls of the `close` handler, which cancel without
assigning `null` to the handle variables. -/
def cancelLLMKeep (s : SessionState) : SessionState :=
  match s.currentLLMStream with
  | some i =>
      { s with llmStreams := s.llmStreams.map (cancelAtLLM i) }
  | none => s

def cancelTTSKeep (s : SessionState) : SessionState :=
  match s.currentTTSStream with
  | some i =>
      { s with ttsStreams := s.ttsStreams.map (cancelAtTTS i) }
  | none => s

/-- `conversationHistory.push({ role, content })`. -/
def pushHistory (s : SessionState) (r : Role) (t : List Char) : SessionState :=
  { s with conversationHistory := s.conversationHistory ++ [(r, t)] }

/-- `lastFinalizedTranscript = finalText`. -/
def setLastFinalized (s : SessionState) (t : List Char) : SessionState :=
  { s with lastFinalizedTranscript := some t }

/-- `pendingTranscript = null`. -/
def clearPending (s : SessionState) : SessionState :=
  { s with pendingTranscript := none }

/-- `currentLLMStream = createOpenAIStream({...})`: allocate a fresh handle
and point the session at it. -/
def pushLLMStream (s : SessionState) (text : List Char) (cm : Bool)
    (k : StreamKind) : SessionState :=
  { s with
    llmStreams := s.llmStreams ++ [⟨s.nextStreamId, text, cm, k, false, false, false⟩],
    currentLLMStream := some s.nextStreamId,
    nextStreamId := s.nextStreamId + 1 }

/-- `currentLLMStream = null`. -/
def clearLLMHandle (s : SessionState) : SessionState :=
  { s with currentLLMStream := none }

/-- `currentLLMStream = null; currentTTSStream = null` (interrupt handler). -/
def clearHandles (s : SessionState) : SessionState :=
  { s with currentLLMStream := none, currentTTSStream := none }

/-- `currentTTSStream = createTTSStream({...})`: allocate a fresh synthesis
handle and point the session at it. -/
def pushTTSStream (s : SessionState) : SessionState :=
  { s with
    ttsStreams := s.ttsStreams ++ [⟨s.nextStreamId, false, false⟩],
    currentTTSStream := some s.nextStreamId,
    nextStreamId := s.nextStreamId + 1 }

/-- `onEnd` bookkeeping: mark the synthesis stream done and null the handle. -/
def endTTS (s : SessionState) (i : Nat) : SessionState :=
  { s with
    ttsStreams := s.ttsStreams.map (endAtTTS i),
    currentTTSStream := none }

/-- `processUserMessage(userMessage, isChatMode)` (`src/websocket.js`
lines 112–237), up to and including the `createOpenAIStream` call. -/
def processUserMessage (s : SessionState) (userMessage : List Char)
    (isChatMode : Bool) : SessionState :=
  if trimStr userMessage = [] then s
  else
    let messageText := trimStr userMessage
    let s1 := pushHistory s Role.user messageText
    let s2 := sendMessage s1 (OutMsg.status .thinking none)
    let s3 := sendMessage s2 (OutMsg.agentText [] true)
    let s4 := cancelLLM s3
    let s5 := cancelTTS s4
    pushLLMStream s5 messageText isChatMode .viaProcess

/-- `finalizeTranscript()` (`src/websocket.js` lines 686–814), up to and
including the `createOpenAIStream` call. -/
def finalizeTranscript (s : SessionState) : SessionState :=
  match s.pendingTranscript with
  | none => s
  | some p =>
    if trimStr p = [] then s
    else
      let finalText := trimStr p
      if s.lastFinalizedTranscript = some finalText then s
      else
        let s1 := setLastFinalized s finalText
        let s2 := sendMessage s1 (OutMsg.transcript finalText true)
        let s3 := sendMessage s2 (OutMsg.status .processing none)
        let s4 := pushHistory s3 Role.user finalText
        let s5 := clearPending s4
        let s6 := cancelLLM s5
        let s7 := cancelTTS s6
        let s8 := sendMessage s7 (OutMsg.status .thinking none)
        let s9 := sendMessage s8 (OutMsg.agentText [] true)
        pushLLMStream s9 finalText false .viaFinalize

/-- `clearSilenceDetection()` (`src/websocket.js` lines 439–450): clears the
(never-armed) `silenceTimeout` and the periodic `silenceCheckInterval`; the
local `bufferCheckInterval`s are out of its reach. -/
def clearSilenceDetection (s : SessionState) : SessionState :=
  { s with silenceTimer := false, silenceCheckInterval := false }

/-- `startSilenceDetection()`: clear, then start the 100 ms interval. -/
def startSilenceDetection (s : SessionState) : SessionState :=
  { clearSilenceDetection s with silenceCheckInterval := true }

/-- The state resets at the top of `startDeepgramStream()`
(`src/websocket.js` lines 245–253). -/
def dgResetOnStart (s : SessionState) : SessionState :=
  { s with
    lastAudioChunkTime := none, lastTranscriptTime := none,
    pendingTranscript := none, lastFinalizedTranscript := none,
    lastSentTranscript := none, llmCallPending := false,
    receivedFinalTranscript := false }

/-- `deepgramStream = createDeepgramStream({...})`. -/
def dgMarkStarted (s : SessionState) : SessionState :=
  { s with dgPresent := true, dgOpen := true }

/-- `startDeepgramStream()` (`src/websocket.js` lines 239–437). -/
def startDeepgramStream (s : SessionState) : SessionState :=
  if s.dgPresent then s
  else
    dgMarkStarted (startSilenceDetection (clearSilenceDetection (dgResetOnStart s)))

/-- `deepgramStream.close(); deepgramStream = null`, guarded. -/
def dgMarkStopped (s : SessionState) : SessionState :=
  if s.dgPresent then { s with dgPresent := false, dgOpen := false } else s

/-- The state resets at the bottom of `stopDeepgramStream()`
(`src/websocket.js` lines 831–836). -/
def dgResetOnStop (s : SessionState) : SessionState :=
  { s with
    lastAudioChunkTime := none, lastTranscriptTime := none,
    pendingTranscript := none, lastFinalizedTranscript := none,
    lastSentTranscript := none }

/-- `stopDeepgramStream()` (`src/websocket.js` lines 816–837). -/
def stopDeepgramStream (s : SessionState) : SessionState :=
  let s1 := match s.pendingTranscript with
    | some p => if trimStr p ≠ [] then finalizeTranscript s else s
    | none => s
  dgResetOnStop (dgMarkStopped (clearSilenceDetection s1))

/-- `receivedFinalTranscript = true` when Deepgram flags the hypothesis
final (`src/websocket.js` lines 269–275). -/
def dgMarkFinal (s : SessionState) (isFinal : Bool) : SessionState :=
  if isFinal then { s with receivedFinalTranscript := true } else s

/-- Store the merged hypothesis back into `pendingTranscript`. -/
def dgStorePending (s : SessionState) (p : List Char) : SessionState :=
  { s with pendingTranscript := some p }

/-- `lastSentTranscript = currentTranscript; lastTranscriptTime = Date.now()`
(`src/websocket.js` lines 365–369). -/
def dgStamp (s : SessionState) (cur : List Char) (now : Nat) : SessionState :=
  { s with lastSentTranscript := some cur, lastTranscriptTime := some now }

/-- The new-utterance / final-flag bookkeeping
(`src/websocket.js` lines 371–391). -/
def dgUpdateFinalFlag (s : SessionState) (isNew isFinal : Bool) : SessionState :=
  if isNew then { s with receivedFinalTranscript := false }
  else if isFinal then { s with receivedFinalTranscript := true }
  else s

/-- Cancellation of a pending silence-triggered LLM call on a new utterance
(`src/websocket.js` lines 393–414). -/
def dgCancelPendingCall (s : SessionState) (isNew isFinal : Bool) : SessionState :=
  if s.llmCallPending then
    if isNew then
      { s with llmCallPending := false, receivedFinalTranscript := false }
    else if isFinal then { s with receivedFinalTranscript := true }
    else s
  else s

/-- The `isNewUtterance` heuristic (`src/websocket.js` lines 354–363). -/
def dgIsNewUtterance (lastSent : Option (List Char))
    (currentTranscript : List Char) : Bool :=
  match lastSent with
  | none => true
  | some ls =>
      decide (2 * currentTranscript.length < ls.length) &&
        ! subOf ((lowerStr ls).take (min 20 ls.length)) (lowerStr currentTranscript) &&
        ! ((lowerStr ls).take (min 10 ls.length)).isPrefixOf (lowerStr currentTranscript)

/-- The `onTranscript` callback of `createDeepgramStream`
(`src/websocket.js` lines 261–431).  `now` is `Date.now()` at delivery. -/
def handleDgTranscript (s : SessionState) (text : List Char) (isFinal : Bool)
    (now : Nat) : SessionState :=
  if ¬ s.dgOpen then s
  else if trimStr text = [] then s
  else
    let trimmedText := trimStr text
    let s1 := dgMarkFinal s isFinal
    let pending' := match s1.pendingTranscript with
      | none => trimmedText
      | some p => mergeTranscript p trimmedText
    let s2 := dgStorePending s1 pending'
    let currentTranscript := trimStr pending'
    if currentTranscript ≠ [] ∧ s2.lastSentTranscript ≠ some currentTranscript then
      let isNewUtterance := dgIsNewUtterance s2.lastSentTranscript currentTranscript
      let s3 := dgStamp s2 currentTranscript now
      let s4 := dgUpdateFinalFlag s3 isNewUtterance isFinal
      let s5 := dgCancelPendingCall s4 isNewUtterance isFinal
      sendMessage s5 (OutMsg.transcript currentTranscript false)
    else s2

/-- One firing of the 100 ms `silenceCheckInterval`
(`src/websocket.js` lines 460–662). -/
def handleSilenceTick (s : SessionState) (now : Nat) : SessionState :=
  if ¬ s.silenceCheckInterval then s
  else
    match s.lastTranscriptTime with
    | none => s
    | some t0 =>
      match s.pendingTranscript with
      | none => s
      | some p =>
        if now - t0 ≥ 5000 ∧ ¬ s.llmCallPending ∧ trimStr p ≠ [] then
          { s with
            llmCallPending := true,
            bufferTimers := s.bufferTimers ++
              [⟨s.nextBufId, 0, p.length,
                if s.receivedFinalTranscript then some now else none, trimStr p⟩],
            nextBufId := s.nextBufId + 1 }
        else s

/-- `checkForFinalTranscript()` (`src/websocket.js` lines 523–560). -/
def checkForFinalTranscript (s : SessionState) (transcriptAtSilence : List Char) :
    SessionState :=
  let transcriptToProcess := match s.pendingTranscript with
    | some p => if trimStr p ≠ [] then trimStr p else transcriptAtSilence
    | none => transcriptAtSilence
  if transcriptToProcess ≠ [] then
    let s1 := processUserMessage s transcriptToProcess false
    { s1 with
      pendingTranscript := none, lastSentTranscript := none,
      receivedFinalTranscript := false, llmCallPending := false }
  else
    { s with llmCallPending := false, receivedFinalTranscript := false }

def removeBufTimer (s : SessionState) (tid : Nat) : SessionState :=
  { s with bufferTimers := s.bufferTimers.filter (fun t => t.id ≠ tid) }

def updateBufTimer (s : SessionState) (tid : Nat) (t' : BufTimer) : SessionState :=
  { s with bufferTimers := s.bufferTimers.map (fun t => if t.id = tid then t' else t) }

/-- One firing of a live `bufferCheckInterval`
(`src/websocket.js` lines 578–656). -/
def bufTickBody (s : SessionState) (t : BufTimer) (now : Nat) : SessionState :=
  let bufferElapsed := t.bufferElapsed + 100
  let currentLength := match s.pendingTranscript with
    | some p => p.length
    | none => t.transcriptAtSilence.length
  let lastFinalTime :=
    if s.receivedFinalTranscript ∧ t.lastFinalTime = none then some now
    else t.lastFinalTime
  let transcriptStillUpdating := currentLength > t.lastTranscriptLength
  if transcriptStillUpdating then
    updateBufTimer s t.id
      { t with
        bufferElapsed := 0, lastTranscriptLength := currentLength,
        lastFinalTime := none }
  else
    match lastFinalTime with
    | some tf =>
      if s.receivedFinalTranscript then
        if now - tf ≥ 2000 then
          checkForFinalTranscript (removeBufTimer s t.id) t.transcriptAtSilence
        else
          updateBufTimer s t.id
            { t with
              bufferElapsed := bufferElapsed, lastFinalTime := lastFinalTime }
      else if bufferElapsed ≥ 1500 then
        checkForFinalTranscript (removeBufTimer s t.id) t.transcriptAtSilence
      else if bufferElapsed ≥ 5000 then
        checkForFinalTranscript (removeBufTimer s t.id) t.transcriptAtSilence
      else
        updateBufTimer s t.id
          { t with
            bufferElapsed := bufferElapsed, lastFinalTime := lastFinalTime }
    | none =>
      if bufferElapsed ≥ 1500 then
        checkForFinalTranscript (removeBufTimer s t.id) t.transcriptAtSilence
      else if bufferElapsed ≥ 5000 then
        checkForFinalTranscript (removeBufTimer s t.id) t.transcriptAtSilence
      else
        updateBufTimer s t.id
          { t with
            bufferElapsed := bufferElapsed, lastFinalTime := lastFinalTime }

def handleBufferTick (s : SessionState) (tid : Nat) (now : Nat) : SessionState :=
  match s.bufferTimers.find? (fun t => t.id == tid) with
  | some t => bufTickBody s t now
  | none => s

/-- Is a completion stream still able to fire callbacks? -/
def liveLLMB (st : LLMStream) : Bool :=
  !st.cancelled && !st.completed && !st.errored

def liveTTSB (tt : TTSStream) : Bool :=
  !tt.cancelled && !tt.ended

/-- `onToken` of `createOpenAIStream`: a live (non-aborted, unfinished)
stream forwards its token via `sendMessage('agent_text', { token })`. -/
def handleLlmToken (s : SessionState) (i : Nat) (tok : List Char) : SessionState :=
  match s.llmStreams.find? (fun st => st.id == i) with
  | some st =>
      if liveLLMB st then sendMessage s (OutMsg.agentText tok false) else s
  | none => s

def markLLMCompleted (s : SessionState) (i : Nat) : SessionState :=
  { s with llmStreams := s.llmStreams.map (completeAtLLM i) }

def markLLMErrored (s : SessionState) (i : Nat) : SessionState :=
  { s with llmStreams := s.llmStreams.map (errorAtLLM i) }

/-- `onComplete` of `createOpenAIStream`, per call site. -/
def handleLlmComplete (s : SessionState) (i : Nat) (fullText : List Char) :
    SessionState :=
  match s.llmStreams.find? (fun st => st.id == i) with
  | none => s
  | some st =>
    if ¬ liveLLMB st then s
    else
      let s1 := pushHistory s Role.assistant fullText
      let s2 := sendMessage s1 (OutMsg.conversationTurn
        (if st.chatMode then Mode.chat else Mode.voice) st.userText fullText)
      let s3 := markLLMCompleted s2 i
      match st.kind with
      | .viaProcess =>
        let s4 :=
          if st.chatMode then sendMessage s3 (OutMsg.status .idle none)
          else sendMessage (sendMessage s3 (OutMsg.status .speaking none))
            (OutMsg.status .idle none)
        clearLLMHandle s4
      | .viaFinalize =>
        let s4 := sendMessage s3 (OutMsg.status .speaking none)
        pushTTSStream s4

/-- `onError` of `createOpenAIStream`, per call site. -/
def handleLlmError (s : SessionState) (i : Nat) : SessionState :=
  match s.llmStreams.find? (fun st => st.id == i) with
  | none => s
  | some st =>
    if ¬ liveLLMB st then s
    else
      let s1 := sendMessage s (OutMsg.status .errorState (some ErrCode.llmError))
      let s2 := markLLMErrored s1 i
      match st.kind with
      | .viaProcess => clearLLMHandle s2
      | .viaFinalize => s2

/-- `onAudioChunk` of `createTTSStream`. -/
def handleTtsChunk (s : SessionState) (i : Nat) : SessionState :=
  match s.ttsStreams.find? (fun tt => tt.id == i) with
  | some tt => if liveTTSB tt then sendMessage s OutMsg.agentAudio else s
  | none => s

/-- `onEnd` of `createTTSStream`. -/
def handleTtsEnd (s : SessionState) (i : Nat) : SessionState :=
  match s.ttsStreams.find? (fun tt => tt.id == i) with
  | none => s
  | some tt =>
    if ¬ liveTTSB tt then s
    else
      let s1 := sendMessage s (OutMsg.status .idle none)
      endTTS s1 i

/-- The `'start_recording'` case of the message dispatcher. -/
def handleStartRecording (s : SessionState) : SessionState :=
  sendMessage (startDeepgramStream { s with isRecording := true })
    (OutMsg.status .listening none)

/-- The `'stop_recording'` case of the message dispatcher. -/
def handleStopRecording (s : SessionState) : SessionState :=
  sendMessage (stopDeepgramStream { s with isRecording := false })
    (OutMsg.status .idle none)

/-- The `'audio_chunk'` case: update `lastAudioChunkTime` via
`resetSilenceTimer()` and forward the bytes, only while recording. -/
def handleAudioChunk (s : SessionState) (now : Nat) : SessionState :=
  if s.isRecording ∧ s.dgPresent then { s with lastAudioChunkTime := some now }
  else s

/-- The `'interrupt'` case (`src/websocket.js` lines 889–902). -/
def handleInterrupt (s : SessionState) : SessionState :=
  let s1 := cancelLLMKeep s
  let s2 := cancelTTSKeep s1
  let s3 := clearHandles s2
  sendMessage s3 (OutMsg.status .interrupted none)

/-- The `'chat_message'` case. -/
def handleChatMessage (s : SessionState) (text : List Char) : SessionState :=
  if trimStr text ≠ [] then processUserMessage s text true else s

/-- The `ws.on('close')` handler (`src/websocket.js` lines 922–941); the
transport has put the socket out of the OPEN state by the time it runs. -/
def handleSocketClose (s : SessionState) : SessionState :=
  let s0 := { s with wsOpen := false }
  let s1 := clearSilenceDetection s0
  let s2 := { s1 with lastTranscriptTime := none, lastAudioChunkTime := none }
  let s3 := if s2.dgPresent then { s2 with dgOpen := false } else s2
  cancelTTSKeep (cancelLLMKeep s3)

/-- Every serialized callback of one session. -/
inductive Event where
  | msgStartRecording
  | msgStopRecording
  | msgAudioChunk (now : Nat)
  | msgChat (text : List Char)
  | msgInterrupt
  | msgUnknown
  | dgTranscript (text : List Char) (isFinal : Bool) (now : Nat)
  | silenceTick (now : Nat)
  | bufferTick (tid : Nat) (now : Nat)
  | llmToken (i : Nat) (tok : List Char)
  | llmComplete (i : Nat) (fullText : List Char)
  | llmError (i : Nat)
  | ttsChunk (i : Nat)
  | ttsEnd (i : Nat)
  | socketClose
deriving DecidableEq, Repr

def step (e : Event) (s : SessionState) : SessionState :=
  match e with
  | .msgStartRecording => handleStartRecording s
  | .msgStopRecording => handleStopRecording s
  | .msgAudioChunk now => handleAudioChunk s now
  | .msgChat text => handleChatMessage s text
  | .msgInterrupt => handleInterrupt s
  | .msgUnknown => s
  | .dgTranscript text isFinal now => handleDgTranscript s text isFinal now
  | .silenceTick now => handleSilenceTick s now
  | .bufferTick tid now => handleBufferTick s tid now
  | .llmToken i tok => handleLlmToken s i tok
  | .llmComplete i fullText => handleLlmComplete s i fullText
  | .llmError i => handleLlmError s i
  | .ttsChunk i => handleTtsChunk s i
  | .ttsEnd i => handleTtsEnd s i
  | .socketClose => handleSocketClose s

/-- The state just after the connection handler ran
(`sendMessage('status', { state: 'connected' })` at the end). -/
def initState : SessionState :=
  { wsOpen := true,
    outbox := [OutMsg.status .connected none],
    conversationHistory := [],
    isRecording := false,
    dgPresent := false, dgOpen := false,
    lastTranscriptTime := none, lastAudioChunkTime := none,
    pendingTranscript := none, lastFinalizedTranscript := none,
    lastSentTranscript := none,
    silenceCheckInterval := false, silenceTimer := false,
    llmCallPending := false, receivedFinalTranscript := false,
    llmStreams := [], ttsStreams := [],
    currentLLMStream := none, currentTTSStream := none,
    bufferTimers := [],
    nextStreamId := 0, nextBufId := 0 }

def runEvents (evs : List Event) (s : SessionState) : SessionState :=
  evs.foldl (fun s e => step e s) s

/-- A session state that can actually occur: reached from the freshly
connected state by some sequence of serialized callbacks. -/
def Reachable (s : SessionState) : Prop :=
  ∃ evs : List Event, runEvents evs initState = s

/-! ### The session invariant -/

def LiveLLM (st : LLMStream) : Prop := liveLLMB st = true

def LiveTTS (tt : TTSStream) : Prop := liveTTSB tt = true

/-- Structural invariant of a session: stream ids are fresh and unique, a
live stream of either kind is exactly the one the session's handle variable
points to, a live completion and a live synthesis never coexist, and every
completion was started on non-empty trimmed text. -/
structure Inv (s : SessionState) : Prop where
  llmIdsLt : ∀ st ∈ s.llmStreams, st.id < s.nextStreamId
  ttsIdsLt : ∀ tt ∈ s.ttsStreams, tt.id < s.nextStreamId
  llmIdsNodup : (s.llmStreams.map LLMStream.id).Nodup
  ttsIdsNodup : (s.ttsStreams.map TTSStream.id).Nodup
  liveCur : ∀ st ∈ s.llmStreams, LiveLLM st → s.currentLLMStream = some st.id
  liveCurT : ∀ tt ∈ s.ttsStreams, LiveTTS tt → s.currentTTSStream = some tt.id
  texts : ∀ st ∈ s.llmStreams, st.userText ≠ [] ∧ trimStr st.userText = st.userText
  noBoth : ∀ st ∈ s.llmStreams, LiveLLM st → ∀ tt ∈ s.ttsStreams, ¬ LiveTTS tt
  curIn : ∀ i, s.currentLLMStream = some i → ∃ st ∈ s.llmStreams, st.id = i

/-- The fields of the state the invariant talks about. -/
def coreEq (s s' : SessionState) : Prop :=
  s'.llmStreams = s.llmStreams ∧ s'.ttsStreams = s.ttsStreams ∧
  s'.currentLLMStream = s.currentLLMStream ∧
  s'.currentTTSStream = s.currentTTSStream ∧
  s'.nextStreamId = s.nextStreamId

/-! ### Frame facts: which handlers leave the socket, outbox and
duplicate-finalize guard alone -/

/-- `s'` arises from `s` without toggling the socket state, without touching
the duplicate-finalize guard, and without emitting anything when the socket
is not open. -/
structure Frame (s s' : SessionState) : Prop where
  wsOpen_eq : s'.wsOpen = s.wsOpen
  lastFin_eq : s'.lastFinalizedTranscript = s.lastFinalizedTranscript
  outbox_eq : s.wsOpen = false → s'.outbox = s.outbox

/-! ### A cancelled completion id never comes back to life -/

/-- Stream id `i` has been allocated and every handle carrying it is dead
(cancelled, completed or errored). -/
def DeadIdHigh (s : SessionState) (i : Nat) : Prop :=
  i < s.nextStreamId ∧ ∀ st ∈ s.llmStreams, st.id = i → ¬ LiveLLM st

/-! ### Concrete inputs used by the claims -/

/-- An agent response that is exactly the booking JSON object of the spec's
scenario (braces written via escapes). -/
def bookingJson : List Char :=
  ("\x7b\"action\":\"book_appointment\",\"payload\":\x7b\"name\":\"Ada Lovelace\"," ++
   "\"email\":\"ada@example.com\",\"phone\":\"+15551234567\"," ++
   "\"date\":\"2026-01-15\",\"time\":\"10:00\",\"notes\":\"\"\x7d\x7d").toList

/-- A chat turn whose completion streams back the booking JSON, token and
completion both carrying the raw object. -/
def c1Trace : List Event :=
  [Event.msgChat ("book me an appointment".toList),
   Event.llmToken 0 bookingJson,
   Event.llmComplete 0 bookingJson]

/-- Recording starts, speech arrives, the endpointer arms a buffer sub-timer
at the silence threshold, then the client disconnects. -/
def c2Trace : List Event :=
  [Event.msgStartRecording,
   Event.dgTranscript ("hello there".toList) false 1000,
   Event.silenceTick 6000,
   Event.socketClose]

/-- Two successive chat turns: the second submission must cancel the first
completion. -/
def c4Trace : List Event :=
  [Event.msgChat ("hi".toList), Event.msgChat ("again".toList)]

/-- One chat turn, leaving completion stream 0 active. -/
def c5Trace : List Event :=
  [Event.msgChat ("hi".toList)]

/-- Recording starts and one partial hypothesis arrives, leaving a non-empty
pending transcript. -/
def c7Trace : List Event :=
  [Event.msgStartRecording,
   Event.dgTranscript ("hello".toList) false 1000]

/-! ### Basic facts about `trimStr`, `lowerStr` and `subOf` -/

theorem trimStr_eq_self_dropWhile {l : List Char} (h : trimStr l = l) :
    l.dropWhile isWS = l := by
  have hsub : (l.dropWhile isWS) <:+ l := List.dropWhile_suffix isWS
  apply hsub.eq_of_length
  have h1 : (trimStr l).length ≤ (l.dropWhile isWS).length := by
    unfold trimStr
    rw [List.length_reverse]
    calc (((l.dropWhile isWS).reverse.dropWhile isWS)).length
        ≤ (l.dropWhile isWS).reverse.length := (List.dropWhile_suffix isWS).length_le
      _ = (l.dropWhile isWS).length := List.length_reverse _
  have h2 : (l.dropWhile isWS).length ≤ l.length := hsub.length_le
  have h3 : (trimStr l).length = l.length := by rw [h]
  omega

theorem trimStr_eq_self_dropWhile_reverse {l : List Char} (h : trimStr l = l) :
    l.reverse.dropWhile isWS = l.reverse := by
  have hd : l.dropWhile isWS = l := trimStr_eq_self_dropWhile h
  have h' : trimStr l = ((l.reverse.dropWhile isWS)).reverse := by
    unfold trimStr; rw [hd]
  have : ((l.reverse.dropWhile isWS)).reverse = l := by rw [← h', h]
  calc l.reverse.dropWhile isWS
      = ((l.reverse.dropWhile isWS)).reverse.reverse := (List.reverse_reverse _).symm
    _ = l.reverse := by rw [this]

theorem head_not_ws_of_dropWhile_eq {c : Char} {t : List Char}
    (h : (c :: t).dropWhile isWS = c :: t) : isWS c = false := by
  by_contra hc
  have hc' : isWS c = true := by
    cases hcv : isWS c with
    | false => exact absurd hcv hc
    | true => rfl
  rw [List.dropWhile_cons, hc'] at h
  simp only [if_true] at h
  have := congrArg List.length h
  have hle : (t.dropWhile isWS).length ≤ t.length :=
    (List.dropWhile_suffix isWS).length_le
  simp only [List.length_cons] at this
  omega

theorem dropWhile_cons_of_neg {c : Char} {t : List Char} (h : isWS c = false) :
    (c :: t).dropWhile isWS = c :: t := by
  rw [List.dropWhile_cons, h]
  simp

/-- Appending with a single interior space keeps a string trimmed when both
halves are non-empty and trimmed. -/
theorem trimStr_append {P T : List Char} (hP : trimStr P = P) (hT : trimStr T = T)
    (hPne : P ≠ []) (hTne : T ≠ []) :
    trimStr (P ++ ' ' :: T) = P ++ ' ' :: T := by
  obtain ⟨p0, P', rfl⟩ : ∃ p0 P', P = p0 :: P' := by
    cases P with
    | nil => exact absurd rfl hPne
    | cons a b => exact ⟨a, b, rfl⟩
  have hp0 : isWS p0 = false :=
    head_not_ws_of_dropWhile_eq (trimStr_eq_self_dropWhile hP)
  have hTrev : T.reverse.dropWhile isWS = T.reverse :=
    trimStr_eq_self_dropWhile_reverse hT
  obtain ⟨t0, T', hTr⟩ : ∃ t0 T', T.reverse = t0 :: T' := by
    cases hrv : T.reverse with
    | nil =>
      have : T = [] := by
        have := congrArg List.reverse hrv
        simpa using this
      exact absurd this hTne
    | cons a b => exact ⟨a, b, rfl⟩
  have ht0 : isWS t0 = false := by
    apply head_not_ws_of_dropWhile_eq (t := T')
    rw [← hTr]; exact hTrev
  unfold trimStr
  have h1 : ((p0 :: P') ++ ' ' :: T).dropWhile isWS = (p0 :: P') ++ ' ' :: T := by
    rw [List.cons_append]
    exact dropWhile_cons_of_neg hp0
  rw [h1]
  have h2 : ((p0 :: P') ++ ' ' :: T).reverse = T.reverse ++ ' ' :: (p0 :: P').reverse := by
    simp
  rw [h2, hTr, List.cons_append]
  rw [dropWhile_cons_of_neg ht0]
  rw [← List.cons_append, ← hTr]
  simp

theorem subOf_refl (l : List Char) : subOf l l = true := by
  cases l with
  | nil => rfl
  | cons c t =>
    unfold subOf
    have : (c :: t).isPrefixOf (c :: t) = true := by
      rw [List.isPrefixOf_iff_prefix]
    rw [this]
    simp

theorem length_le_of_subOf {n h : List Char} (hs : subOf n h = true) :
    n.length ≤ h.length := by
  induction h with
  | nil =>
    unfold subOf at hs
    have : n = [] := by simpa [List.isEmpty_iff] using hs
    simp [this]
  | cons c t ih =>
    unfold subOf at hs
    rcases Bool.or_eq_true_iff.mp hs with hpre | hrec
    · have := (List.isPrefixOf_iff_prefix.mp hpre).length_le
      simpa using this
    · have := ih hrec
      simp only [List.length_cons]
      omega

/-- `Char.toLower` never turns whitespace into non-whitespace or vice versa. -/
theorem isWhitespace_toLower (c : Char) :
    (Char.toLower c).isWhitespace = c.isWhitespace := by
  unfold Char.toLower
  simp only []
  by_cases hrange : c.toNat ≥ 65 ∧ c.toNat ≤ 90
  · rw [if_pos hrange]
    have hval : (Char.ofNat (c.toNat + 32)).toNat = c.toNat + 32 := by
      have hv : (c.toNat + 32).isValidChar := Or.inl (by omega)
      rw [Char.ofNat, dif_pos hv]
      rfl
    have hfalse : ∀ (x : Char), x.toNat ≠ 32 → x.toNat ≠ 9 → x.toNat ≠ 13 →
        x.toNat ≠ 10 → x.isWhitespace = false := by
      intro x h32 h9 h13 h10
      simp only [Char.isWhitespace, Bool.or_eq_false_iff, decide_eq_false_iff_not]
      refine ⟨⟨⟨?_, ?_⟩, ?_⟩, ?_⟩ <;> intro he <;> subst he
      · exact h32 rfl
      · exact h9 rfl
      · exact h13 rfl
      · exact h10 rfl
    rw [hfalse _ (by omega) (by omega) (by omega) (by omega),
      hfalse c (by omega) (by omega) (by omega) (by omega)]
  · rw [if_neg hrange]

theorem isWS_toLower (c : Char) : isWS (Char.toLower c) = isWS c :=
  isWhitespace_toLower c

theorem length_lowerStr (l : List Char) : (lowerStr l).length = l.length :=
  List.length_map _ _

/-- Lowering commutes with trimming, so a trimmed string stays trimmed
after `toLowerCase`. -/
theorem trimStr_lowerStr {l : List Char} (h : trimStr l = l) :
    trimStr (lowerStr l) = lowerStr l := by
  have hpred : (isWS ∘ Char.toLower) = isWS := by
    funext c; exact isWS_toLower c
  have hd : (lowerStr l).dropWhile isWS = lowerStr l := by
    unfold lowerStr
    rw [List.dropWhile_map, hpred, trimStr_eq_self_dropWhile h]
  have hr : (lowerStr l).reverse.dropWhile isWS = (lowerStr l).reverse := by
    unfold lowerStr
    rw [← List.map_reverse, List.dropWhile_map, hpred,
      trimStr_eq_self_dropWhile_reverse h, List.map_reverse]
  unfold trimStr
  rw [hd, hr, List.reverse_reverse]

/-! ### Claims about the merge algorithm (C3, C8, C9) -/

/-- Claim C3: for every pending transcript and incoming transcript (both
trimmed, incoming non-empty, as the accumulator always supplies them), the
code's merge returns exactly the result prescribed by the ten-step
algorithm of spec §4.1. -/
theorem merge_matches_spec_algorithm (P T : List Char)
    (hP : trimStr P = P) (hT : trimStr T = T) (hTne : T ≠ []) :
    mergeTranscript P T = specMergeTranscript P T := by
  by_cases hPe : P.isEmpty = true
  · unfold mergeTranscript specMergeTranscript
    rw [if_pos hPe, if_pos hPe]
  · have hPne : P ≠ [] := by
      intro h; rw [h] at hPe; exact hPe rfl
    have happ : trimStr (P ++ ' ' :: T) = P ++ ' ' :: T :=
      trimStr_append hP hT hPne hTne
    rcases Nat.lt_trichotomy P.length T.length with hlt | heq | hgt
    · -- incoming strictly longer
      by_cases hA : newContainsExisting P T = true
      · simp [mergeTranscript, specMergeTranscript, hPe, hlt, hA]
      · by_cases hB : existingContainsNew P T = true
        · simp [mergeTranscript, specMergeTranscript, hPe, hlt, hA, hB]
        · simp [mergeTranscript, specMergeTranscript, hPe, hlt, hA, hB, happ]
    · -- equal lengths
      have heq' : T.length = P.length := heq.symm
      by_cases hA : newContainsExisting P T = true
      · simp [mergeTranscript, specMergeTranscript, hPe, heq', hA]
      · by_cases hTP : T = P
        · subst hTP
          simp [mergeTranscript, specMergeTranscript, hPe, hA]
        · simp [mergeTranscript, specMergeTranscript, hPe, heq', hA, hTP]
    · -- incoming strictly shorter
      have h1 : ¬(T.length > P.length) := by omega
      have h2 : ¬(T.length ≥ P.length) := by omega
      have h3 : T.length ≠ P.length := by omega
      have h4 : T.length < P.length := hgt
      by_cases hB : existingContainsNew P T = true
      · simp [mergeTranscript, specMergeTranscript, hPe, h1, h2, h3, h4, hgt, hB]
      · by_cases hA : newContainsExisting P T = true
        · simp [mergeTranscript, specMergeTranscript, hPe, h1, h2, h3, h4, hgt, hA, hB]
        · by_cases hx : subOf (newStart T) (existingEnd P) = true
          · simp [mergeTranscript, specMergeTranscript, hPe, h1, h2, h3, h4, hgt,
              hA, hB, hx]
          · by_cases hy : subOf (existingEnd P) (newStart T) = true
            · simp [mergeTranscript, specMergeTranscript, hPe, h1, h2, h3, h4, hgt,
                hA, hB, hx, hy]
            · simp [mergeTranscript, specMergeTranscript, hPe, h1, h2, h3, h4, hgt,
                hA, hB, hx, hy, happ]

/-- Witness for C3 at a concrete pending/incoming pair. -/
theorem merge_matches_spec_algorithm_witness :
    mergeTranscript ("hello".toList) ("hello world".toList) =
      specMergeTranscript ("hello".toList) ("hello world".toList) :=
  merge_matches_spec_algorithm _ _ (by decide) (by decide) (by decide)

/-- Claim C8: the merge is idempotent, `merge(P, P) = P` for every string. -/
theorem merge_idempotent (P : List Char) : mergeTranscript P P = P := by
  by_cases hPe : P.isEmpty = true
  · unfold mergeTranscript
    rw [if_pos hPe]
  · have hrefl : newContainsExisting P P = true := subOf_refl _
    simp [mergeTranscript, hPe, hrefl]

/-- Claim C9: the merge absorbs contained hypotheses: if the incoming
transcript contains the pending one (case-insensitively, on the trimmed
strings, exactly the containment the code computes), the merge returns the
incoming transcript.  Both strings are trimmed, as the accumulator always
supplies them. -/
theorem merge_absorbs_contained (P T : List Char)
    (hP : trimStr P = P) (hT : trimStr T = T)
    (hc : newContainsExisting P T = true) :
    mergeTranscript P T = T := by
  by_cases hPe : P.isEmpty = true
  · unfold mergeTranscript
    rw [if_pos hPe]
  · have hlen : P.length ≤ T.length := by
      have hc' := hc
      unfold newContainsExisting at hc'
      rw [trimStr_lowerStr hP, trimStr_lowerStr hT] at hc'
      have := length_le_of_subOf hc'
      rwa [length_lowerStr, length_lowerStr] at this
    rcases Nat.lt_or_ge P.length T.length with hlt | hge
    · simp [mergeTranscript, hPe, hlt, hc]
    · have heq : T.length = P.length := by omega
      simp [mergeTranscript, hPe, heq, hc]

/-- Witness for C9 at a concrete pending/incoming pair. -/
theorem merge_absorbs_contained_witness :
    mergeTranscript ("book".toList) ("book an appointment".toList) =
      "book an appointment".toList :=
  merge_absorbs_contained _ _ (by decide) (by decide) (by decide)

theorem inv_of_coreEq {s s' : SessionState} (h : coreEq s s') (hi : Inv s) :
    Inv s' := by
  obtain ⟨h1, h2, h3, h4, h5⟩ := h
  exact {
    llmIdsLt := by rw [h1, h5]; exact hi.llmIdsLt
    ttsIdsLt := by rw [h2, h5]; exact hi.ttsIdsLt
    llmIdsNodup := by rw [h1]; exact hi.llmIdsNodup
    ttsIdsNodup := by rw [h2]; exact hi.ttsIdsNodup
    liveCur := by rw [h1, h3]; exact hi.liveCur
    liveCurT := by rw [h2, h4]; exact hi.liveCurT
    texts := by rw [h1]; exact hi.texts
    noBoth := by rw [h1, h2]; exact hi.noBoth
    curIn := by rw [h1, h3]; exact hi.curIn }

theorem coreEq_sendMessage (s : SessionState) (m : OutMsg) :
    coreEq s (sendMessage s m) := by
  unfold sendMessage
  split <;> exact ⟨rfl, rfl, rfl, rfl, rfl⟩

theorem inv_sendMessage {s : SessionState} (hi : Inv s) (m : OutMsg) :
    Inv (sendMessage s m) :=
  inv_of_coreEq (coreEq_sendMessage s m) hi

theorem sendMessage_wsOpen (s : SessionState) (m : OutMsg) :
    (sendMessage s m).wsOpen = s.wsOpen := by
  unfold sendMessage
  split <;> rfl

/-- Mapping an id-preserving function over a stream list leaves the id map
unchanged. -/
theorem idMap_map_llm (l : List LLMStream) (f : LLMStream → LLMStream)
    (h : ∀ st, (f st).id = st.id) :
    (l.map f).map LLMStream.id = l.map LLMStream.id := by
  rw [List.map_map]
  apply List.map_congr_left
  intro st _
  exact h st

theorem idMap_map_tts (l : List TTSStream) (f : TTSStream → TTSStream)
    (h : ∀ tt, (f tt).id = tt.id) :
    (l.map f).map TTSStream.id = l.map TTSStream.id := by
  rw [List.map_map]
  apply List.map_congr_left
  intro tt _
  exact h tt

theorem cancelAtLLM_id (i : Nat) (st : LLMStream) : (cancelAtLLM i st).id = st.id := by
  unfold cancelAtLLM
  split <;> rfl

theorem cancelAtTTS_id (i : Nat) (tt : TTSStream) : (cancelAtTTS i tt).id = tt.id := by
  unfold cancelAtTTS
  split <;> rfl

theorem cancelAtLLM_userText (i : Nat) (st : LLMStream) :
    (cancelAtLLM i st).userText = st.userText := by
  unfold cancelAtLLM
  split <;> rfl

theorem cancelAtLLM_dead_of_eq {i : Nat} {st : LLMStream} (h : st.id = i) :
    ¬ LiveLLM (cancelAtLLM i st) := by
  unfold cancelAtLLM LiveLLM liveLLMB
  rw [if_pos h]
  simp

theorem cancelAtLLM_eq_of_ne {i : Nat} {st : LLMStream} (h : ¬ st.id = i) :
    cancelAtLLM i st = st := by
  unfold cancelAtLLM
  rw [if_neg h]

theorem cancelAtTTS_dead_of_eq {i : Nat} {tt : TTSStream} (h : tt.id = i) :
    ¬ LiveTTS (cancelAtTTS i tt) := by
  unfold cancelAtTTS LiveTTS liveTTSB
  rw [if_pos h]
  simp

theorem cancelAtTTS_eq_of_ne {i : Nat} {tt : TTSStream} (h : ¬ tt.id = i) :
    cancelAtTTS i tt = tt := by
  unfold cancelAtTTS
  rw [if_neg h]

/-- After `cancelLLM` no completion stream is live, and the invariant holds. -/
theorem inv_cancelLLM {s : SessionState} (hi : Inv s) :
    Inv (cancelLLM s) ∧ (∀ st ∈ (cancelLLM s).llmStreams, ¬ LiveLLM st) ∧
      (cancelLLM s).ttsStreams = s.ttsStreams ∧
      (cancelLLM s).currentTTSStream = s.currentTTSStream ∧
      (cancelLLM s).nextStreamId = s.nextStreamId := by
  unfold cancelLLM
  cases hc : s.currentLLMStream with
  | none =>
    dsimp only
    refine ⟨hi, ?_, rfl, rfl, rfl⟩
    intro st hmem hlive
    have := hi.liveCur st hmem hlive
    rw [hc] at this
    exact Option.noConfusion this
  | some i =>
    dsimp only
    have hdeadAll : ∀ st' ∈ s.llmStreams.map (cancelAtLLM i), ¬ LiveLLM st' := by
      intro st' hmem' hlive'
      obtain ⟨st0, hmem0, heq0⟩ := List.mem_map.mp hmem'
      by_cases hid : st0.id = i
      · exact cancelAtLLM_dead_of_eq hid (heq0 ▸ hlive')
      · rw [cancelAtLLM_eq_of_ne hid] at heq0
        rw [← heq0] at hlive'
        have := hi.liveCur st0 hmem0 hlive'
        rw [hc] at this
        exact hid (Option.some.inj this).symm
    refine ⟨?_, ?_, rfl, rfl, rfl⟩
    · exact {
        llmIdsLt := by
          intro st' hmem'
          obtain ⟨st0, hmem0, heq0⟩ := List.mem_map.mp hmem'
          have := hi.llmIdsLt st0 hmem0
          rw [← heq0, cancelAtLLM_id]
          exact this
        ttsIdsLt := hi.ttsIdsLt
        llmIdsNodup := by
          rw [idMap_map_llm _ _ (cancelAtLLM_id i)]
          exact hi.llmIdsNodup
        ttsIdsNodup := hi.ttsIdsNodup
        liveCur := by
          intro st' hmem' hlive'
          exact absurd hlive' (hdeadAll st' hmem')
        liveCurT := hi.liveCurT
        texts := by
          intro st' hmem'
          obtain ⟨st0, hmem0, heq0⟩ := List.mem_map.mp hmem'
          have := hi.texts st0 hmem0
          rw [← heq0, cancelAtLLM_userText]
          exact this
        noBoth := by
          intro st' hmem' hlive'
          exact absurd hlive' (hdeadAll st' hmem')
        curIn := by
          intro j hj
          exact Option.noConfusion hj }
    · exact hdeadAll

/-- After `cancelTTS` no synthesis stream is live, and the invariant holds;
the completion side of the state is untouched. -/
theorem inv_cancelTTS {s : SessionState} (hi : Inv s) :
    Inv (cancelTTS s) ∧ (∀ tt ∈ (cancelTTS s).ttsStreams, ¬ LiveTTS tt) ∧
      (cancelTTS s).llmStreams = s.llmStreams ∧
      (cancelTTS s).currentLLMStream = s.currentLLMStream ∧
      (cancelTTS s).nextStreamId = s.nextStreamId := by
  unfold cancelTTS
  cases hc : s.currentTTSStream with
  | none =>
    dsimp only
    refine ⟨hi, ?_, rfl, rfl, rfl⟩
    intro tt hmem hlive
    have := hi.liveCurT tt hmem hlive
    rw [hc] at this
    exact Option.noConfusion this
  | some i =>
    dsimp only
    have hdeadAll : ∀ tt' ∈ s.ttsStreams.map (cancelAtTTS i), ¬ LiveTTS tt' := by
      intro tt' hmem' hlive'
      obtain ⟨tt0, hmem0, heq0⟩ := List.mem_map.mp hmem'
      by_cases hid : tt0.id = i
      · exact cancelAtTTS_dead_of_eq hid (heq0 ▸ hlive')
      · rw [cancelAtTTS_eq_of_ne hid] at heq0
        rw [← heq0] at hlive'
        have := hi.liveCurT tt0 hmem0 hlive'
        rw [hc] at this
        exact hid (Option.some.inj this).symm
    refine ⟨?_, ?_, rfl, rfl, rfl⟩
    · exact {
        llmIdsLt := hi.llmIdsLt
        ttsIdsLt := by
          intro tt' hmem'
          obtain ⟨tt0, hmem0, heq0⟩ := List.mem_map.mp hmem'
          have := hi.ttsIdsLt tt0 hmem0
          rw [← heq0, cancelAtTTS_id]
          exact this
        llmIdsNodup := hi.llmIdsNodup
        ttsIdsNodup := by
          rw [idMap_map_tts _ _ (cancelAtTTS_id i)]
          exact hi.ttsIdsNodup
        liveCur := hi.liveCur
        liveCurT := by
          intro tt' hmem' hlive'
          exact absurd hlive' (hdeadAll tt' hmem')
        texts := hi.texts
        noBoth := by
          intro st hmem hlive tt' hmem'
          exact hdeadAll tt' hmem'
        curIn := hi.curIn }
    · exact hdeadAll

theorem dropWhile_idem (p : Char → Bool) (l : List Char) :
    (l.dropWhile p).dropWhile p = l.dropWhile p := by
  induction l with
  | nil => rfl
  | cons a t ih =>
    rw [List.dropWhile_cons]
    split
    · exact ih
    · rename_i h
      rw [List.dropWhile_cons, if_neg h]

/-- `trim` is idempotent. -/
theorem trimStr_trimStr (l : List Char) : trimStr (trimStr l) = trimStr l := by
  have hm : (l.dropWhile isWS).dropWhile isWS = l.dropWhile isWS :=
    dropWhile_idem isWS l
  set m := l.dropWhile isWS with hmdef
  set r := ((m.reverse.dropWhile isWS)).reverse with hrdef
  have hrrev : r.reverse = m.reverse.dropWhile isWS := by
    rw [hrdef, List.reverse_reverse]
  have h2 : r.reverse.dropWhile isWS = r.reverse := by
    rw [hrrev]; exact dropWhile_idem isWS m.reverse
  have hpre : r <+: m := by
    rw [← List.reverse_suffix]
    rw [hrrev]
    exact List.dropWhile_suffix isWS
  have h3 : r.dropWhile isWS = r := by
    cases hr : r with
    | nil => rfl
    | cons r0 r' =>
      obtain ⟨rest, hrm⟩ := hpre
      rw [hr] at hrm
      have hmform : m = r0 :: (r' ++ rest) := by
        rw [← hrm, List.cons_append]
      have hm' : (r0 :: (r' ++ rest)).dropWhile isWS = r0 :: (r' ++ rest) := by
        rw [← hmform]; exact hm
      exact dropWhile_cons_of_neg (head_not_ws_of_dropWhile_eq hm')
  show ((r.dropWhile isWS).reverse.dropWhile isWS).reverse = r
  rw [h3, h2, List.reverse_reverse]

/-- Starting a fresh completion on a session with no live handles keeps the
invariant. -/
theorem sendMessage_llmStreams (s : SessionState) (m : OutMsg) :
    (sendMessage s m).llmStreams = s.llmStreams := by
  unfold sendMessage
  split <;> rfl

theorem sendMessage_ttsStreams (s : SessionState) (m : OutMsg) :
    (sendMessage s m).ttsStreams = s.ttsStreams := by
  unfold sendMessage
  split <;> rfl

theorem cancelTTS_llmStreams (s : SessionState) :
    (cancelTTS s).llmStreams = s.llmStreams := by
  unfold cancelTTS
  cases s.currentTTSStream <;> rfl

/-- Starting a fresh completion on a session with no live handles keeps the
invariant. -/
theorem inv_pushStream {s : SessionState} (hi : Inv s)
    (hnl : ∀ st ∈ s.llmStreams, ¬ LiveLLM st)
    (hnt : ∀ tt ∈ s.ttsStreams, ¬ LiveTTS tt)
    (text : List Char) (cm : Bool) (k : StreamKind)
    (htne : text ≠ []) (htr : trimStr text = text) :
    Inv (pushLLMStream s text cm k) := by
  unfold pushLLMStream
  constructor
  · intro st hmem
    rcases List.mem_append.mp hmem with hold | hnew
    · have := hi.llmIdsLt st hold
      simp only
      omega
    · rw [List.mem_singleton.mp hnew]
      simp only
      omega
  · intro tt hmem
    have := hi.ttsIdsLt tt hmem
    simp only
    omega
  · simp only [List.map_append, List.map_cons, List.map_nil]
    rw [List.nodup_append]
    refine ⟨hi.llmIdsNodup, List.nodup_singleton _, ?_⟩
    intro a ha hb
    have hlta : a < s.nextStreamId := by
      obtain ⟨st0, hst0, hid0⟩ := List.mem_map.mp ha
      rw [← hid0]
      exact hi.llmIdsLt st0 hst0
    have : a = s.nextStreamId := List.mem_singleton.mp hb
    omega
  · exact hi.ttsIdsNodup
  · intro st hmem hlive
    rcases List.mem_append.mp hmem with hold | hnew
    · exact absurd hlive (hnl st hold)
    · rw [List.mem_singleton.mp hnew]
  · intro tt hmem hlive
    exact absurd hlive (hnt tt hmem)
  · intro st hmem
    rcases List.mem_append.mp hmem with hold | hnew
    · exact hi.texts st hold
    · rw [List.mem_singleton.mp hnew]
      exact ⟨htne, htr⟩
  · intro st hmem hlive tt hmem'
    exact hnt tt hmem'
  · intro j hj
    refine ⟨⟨s.nextStreamId, text, cm, k, false, false, false⟩, ?_, ?_⟩
    · exact List.mem_append.mpr (Or.inr (List.mem_singleton.mpr rfl))
    · exact Option.some.inj hj

theorem inv_processUserMessage {s : SessionState} (hi : Inv s)
    (text : List Char) (cm : Bool) : Inv (processUserMessage s text cm) := by
  unfold processUserMessage
  split
  · exact hi
  · rename_i hne
    dsimp only
    have hcore0 : coreEq s (pushHistory s Role.user (trimStr text)) :=
      ⟨rfl, rfl, rfl, rfl, rfl⟩
    have hi0 : Inv (pushHistory s Role.user (trimStr text)) :=
      inv_of_coreEq hcore0 hi
    have hi2 := inv_sendMessage (inv_sendMessage hi0 (OutMsg.status .thinking none))
      (OutMsg.agentText [] true)
    obtain ⟨hiA, hdeadL, _, _, _⟩ := inv_cancelLLM hi2
    obtain ⟨hiB, hdeadT, hLeq, _, _⟩ := inv_cancelTTS hiA
    refine inv_pushStream hiB ?_ hdeadT (trimStr text) cm .viaProcess hne
      (trimStr_trimStr text)
    rw [hLeq]
    exact hdeadL

theorem inv_finalizeTranscript {s : SessionState} (hi : Inv s) :
    Inv (finalizeTranscript s) := by
  unfold finalizeTranscript
  cases hp : s.pendingTranscript with
  | none => exact hi
  | some p =>
    dsimp only
    split
    · exact hi
    · split
      · exact hi
      · rename_i hne hdup
        have hcore0 : coreEq s (setLastFinalized s (trimStr p)) :=
          ⟨rfl, rfl, rfl, rfl, rfl⟩
        have hi0 : Inv (setLastFinalized s (trimStr p)) :=
          inv_of_coreEq hcore0 hi
        have hi1 := inv_sendMessage (inv_sendMessage hi0
          (OutMsg.transcript (trimStr p) true)) (OutMsg.status .processing none)
        have hcore2 : coreEq (sendMessage (sendMessage
            (setLastFinalized s (trimStr p)) (OutMsg.transcript (trimStr p) true))
            (OutMsg.status .processing none)) (pushHistory (sendMessage (sendMessage
            (setLastFinalized s (trimStr p)) (OutMsg.transcript (trimStr p) true))
            (OutMsg.status .processing none)) Role.user (trimStr p)) :=
          ⟨rfl, rfl, rfl, rfl, rfl⟩
        have hi2 : Inv (pushHistory (sendMessage (sendMessage
            (setLastFinalized s (trimStr p)) (OutMsg.transcript (trimStr p) true))
            (OutMsg.status .processing none)) Role.user (trimStr p)) :=
          inv_of_coreEq hcore2 hi1
        have hcore3 : coreEq (pushHistory (sendMessage (sendMessage
            (setLastFinalized s (trimStr p)) (OutMsg.transcript (trimStr p) true))
            (OutMsg.status .processing none)) Role.user (trimStr p))
            (clearPending (pushHistory (sendMessage (sendMessage
            (setLastFinalized s (trimStr p)) (OutMsg.transcript (trimStr p) true))
            (OutMsg.status .processing none)) Role.user (trimStr p))) :=
          ⟨rfl, rfl, rfl, rfl, rfl⟩
        have hi3 : Inv (clearPending (pushHistory (sendMessage (sendMessage
            (setLastFinalized s (trimStr p)) (OutMsg.transcript (trimStr p) true))
            (OutMsg.status .processing none)) Role.user (trimStr p))) :=
          inv_of_coreEq hcore3 hi2
        obtain ⟨hiA, hdeadL, _, _, _⟩ := inv_cancelLLM hi3
        obtain ⟨hiB, hdeadT, hLeq, _, _⟩ := inv_cancelTTS hiA
        have hiC := inv_sendMessage (inv_sendMessage hiB
          (OutMsg.status .thinking none)) (OutMsg.agentText [] true)
        refine inv_pushStream hiC ?_ ?_ (trimStr p) false .viaFinalize hne
          (trimStr_trimStr p)
        · rw [sendMessage_llmStreams, sendMessage_llmStreams, hLeq]
          exact hdeadL
        · rw [sendMessage_ttsStreams, sendMessage_ttsStreams]
          exact hdeadT

/-! ### Invariant preservation for the remaining handlers -/

theorem coreEq_refl (s : SessionState) : coreEq s s := ⟨rfl, rfl, rfl, rfl, rfl⟩

theorem coreEq_trans {s t u : SessionState} (h1 : coreEq s t) (h2 : coreEq t u) :
    coreEq s u := by
  obtain ⟨a1, a2, a3, a4, a5⟩ := h1
  obtain ⟨b1, b2, b3, b4, b5⟩ := h2
  exact ⟨b1.trans a1, b2.trans a2, b3.trans a3, b4.trans a4, b5.trans a5⟩

/-- Any id-, text- and liveness-monotone rewrite of the completion-handle
list preserves the invariant. -/
theorem inv_mapLLM {s : SessionState} (hi : Inv s) (f : LLMStream → LLMStream)
    (hid : ∀ st, (f st).id = st.id)
    (htext : ∀ st, (f st).userText = st.userText)
    (hmono : ∀ st, LiveLLM (f st) → LiveLLM st) :
    Inv { s with llmStreams := s.llmStreams.map f } := by
  constructor
  · intro st' hmem'
    obtain ⟨st0, hmem0, heq0⟩ := List.mem_map.mp hmem'
    rw [← heq0, hid]
    exact hi.llmIdsLt st0 hmem0
  · exact hi.ttsIdsLt
  · show ((s.llmStreams.map f).map LLMStream.id).Nodup
    rw [idMap_map_llm _ _ hid]
    exact hi.llmIdsNodup
  · exact hi.ttsIdsNodup
  · intro st' hmem' hlive'
    obtain ⟨st0, hmem0, heq0⟩ := List.mem_map.mp hmem'
    rw [← heq0] at hlive' ⊢
    rw [hid]
    exact hi.liveCur st0 hmem0 (hmono st0 hlive')
  · exact hi.liveCurT
  · intro st' hmem'
    obtain ⟨st0, hmem0, heq0⟩ := List.mem_map.mp hmem'
    rw [← heq0, htext]
    exact hi.texts st0 hmem0
  · intro st' hmem' hlive' tt hmemt
    obtain ⟨st0, hmem0, heq0⟩ := List.mem_map.mp hmem'
    rw [← heq0] at hlive'
    exact hi.noBoth st0 hmem0 (hmono st0 hlive') tt hmemt
  · intro j hj
    obtain ⟨st0, hmem0, hid0⟩ := hi.curIn j hj
    exact ⟨f st0, List.mem_map.mpr ⟨st0, hmem0, rfl⟩, by rw [hid]; exact hid0⟩

/-- Same for the synthesis-handle list. -/
theorem inv_mapTTS {s : SessionState} (hi : Inv s) (f : TTSStream → TTSStream)
    (hid : ∀ tt, (f tt).id = tt.id)
    (hmono : ∀ tt, LiveTTS (f tt) → LiveTTS tt) :
    Inv { s with ttsStreams := s.ttsStreams.map f } := by
  constructor
  · exact hi.llmIdsLt
  · intro tt' hmem'
    obtain ⟨tt0, hmem0, heq0⟩ := List.mem_map.mp hmem'
    rw [← heq0, hid]
    exact hi.ttsIdsLt tt0 hmem0
  · exact hi.llmIdsNodup
  · show ((s.ttsStreams.map f).map TTSStream.id).Nodup
    rw [idMap_map_tts _ _ hid]
    exact hi.ttsIdsNodup
  · exact hi.liveCur
  · intro tt' hmem' hlive'
    obtain ⟨tt0, hmem0, heq0⟩ := List.mem_map.mp hmem'
    rw [← heq0] at hlive' ⊢
    rw [hid]
    exact hi.liveCurT tt0 hmem0 (hmono tt0 hlive')
  · exact hi.texts
  · intro st hmem hlive tt' hmemt' hlivet'
    obtain ⟨tt0, hmem0, heq0⟩ := List.mem_map.mp hmemt'
    rw [← heq0] at hlivet'
    exact hi.noBoth st hmem hlive tt0 hmem0 (hmono tt0 hlivet')
  · exact hi.curIn

theorem completeAtLLM_id (i : Nat) (st : LLMStream) :
    (completeAtLLM i st).id = st.id := by
  unfold completeAtLLM
  split <;> rfl

theorem completeAtLLM_userText (i : Nat) (st : LLMStream) :
    (completeAtLLM i st).userText = st.userText := by
  unfold completeAtLLM
  split <;> rfl

theorem completeAtLLM_mono (i : Nat) (st : LLMStream) :
    LiveLLM (completeAtLLM i st) → LiveLLM st := by
  unfold completeAtLLM LiveLLM liveLLMB
  split
  · simp
  · exact id

theorem errorAtLLM_id (i : Nat) (st : LLMStream) :
    (errorAtLLM i st).id = st.id := by
  unfold errorAtLLM
  split <;> rfl

theorem errorAtLLM_userText (i : Nat) (st : LLMStream) :
    (errorAtLLM i st).userText = st.userText := by
  unfold errorAtLLM
  split <;> rfl

theorem errorAtLLM_mono (i : Nat) (st : LLMStream) :
    LiveLLM (errorAtLLM i st) → LiveLLM st := by
  unfold errorAtLLM LiveLLM liveLLMB
  split
  · simp
  · exact id

theorem cancelAtLLM_mono (i : Nat) (st : LLMStream) :
    LiveLLM (cancelAtLLM i st) → LiveLLM st := by
  unfold cancelAtLLM LiveLLM liveLLMB
  split
  · simp
  · exact id

theorem cancelAtTTS_mono (i : Nat) (tt : TTSStream) :
    LiveTTS (cancelAtTTS i tt) → LiveTTS tt := by
  unfold cancelAtTTS LiveTTS liveTTSB
  split
  · simp
  · exact id

theorem endAtTTS_id (i : Nat) (tt : TTSStream) : (endAtTTS i tt).id = tt.id := by
  unfold endAtTTS
  split <;> rfl

theorem endAtTTS_mono (i : Nat) (tt : TTSStream) :
    LiveTTS (endAtTTS i tt) → LiveTTS tt := by
  unfold endAtTTS LiveTTS liveTTSB
  split
  · simp
  · exact id

theorem completeAtLLM_dead_of_eq {i : Nat} {st : LLMStream} (h : st.id = i) :
    ¬ LiveLLM (completeAtLLM i st) := by
  unfold completeAtLLM LiveLLM liveLLMB
  rw [if_pos h]
  simp

theorem completeAtLLM_eq_of_ne {i : Nat} {st : LLMStream} (h : ¬ st.id = i) :
    completeAtLLM i st = st := by
  unfold completeAtLLM
  rw [if_neg h]

theorem errorAtLLM_dead_of_eq {i : Nat} {st : LLMStream} (h : st.id = i) :
    ¬ LiveLLM (errorAtLLM i st) := by
  unfold errorAtLLM LiveLLM liveLLMB
  rw [if_pos h]
  simp

theorem errorAtLLM_eq_of_ne {i : Nat} {st : LLMStream} (h : ¬ st.id = i) :
    errorAtLLM i st = st := by
  unfold errorAtLLM
  rw [if_neg h]

theorem endAtTTS_dead_of_eq {i : Nat} {tt : TTSStream} (h : tt.id = i) :
    ¬ LiveTTS (endAtTTS i tt) := by
  unfold endAtTTS LiveTTS liveTTSB
  rw [if_pos h]
  simp

theorem endAtTTS_eq_of_ne {i : Nat} {tt : TTSStream} (h : ¬ tt.id = i) :
    endAtTTS i tt = tt := by
  unfold endAtTTS
  rw [if_neg h]

/-- If the session's handle points at stream `i`, mapping any function that
kills id `i` and leaves the others alone kills every live completion. -/
theorem deadAll_mapLLM {s : SessionState} (hi : Inv s) {i : Nat}
    (hcur : s.currentLLMStream = some i) {g : LLMStream → LLMStream}
    (hdead : ∀ st, st.id = i → ¬ LiveLLM (g st))
    (hne : ∀ st, ¬ st.id = i → g st = st) :
    ∀ st' ∈ s.llmStreams.map g, ¬ LiveLLM st' := by
  intro st' hmem' hlive'
  obtain ⟨st0, hmem0, heq0⟩ := List.mem_map.mp hmem'
  by_cases hid : st0.id = i
  · exact hdead st0 hid (heq0 ▸ hlive')
  · rw [hne st0 hid] at heq0
    rw [← heq0] at hlive'
    have := hi.liveCur st0 hmem0 hlive'
    rw [hcur] at this
    exact hid (Option.some.inj this).symm

theorem deadAll_mapTTS {s : SessionState} (hi : Inv s) {i : Nat}
    (hcur : s.currentTTSStream = some i) {g : TTSStream → TTSStream}
    (hdead : ∀ tt, tt.id = i → ¬ LiveTTS (g tt))
    (hne : ∀ tt, ¬ tt.id = i → g tt = tt) :
    ∀ tt' ∈ s.ttsStreams.map g, ¬ LiveTTS tt' := by
  intro tt' hmem' hlive'
  obtain ⟨tt0, hmem0, heq0⟩ := List.mem_map.mp hmem'
  by_cases hid : tt0.id = i
  · exact hdead tt0 hid (heq0 ▸ hlive')
  · rw [hne tt0 hid] at heq0
    rw [← heq0] at hlive'
    have := hi.liveCurT tt0 hmem0 hlive'
    rw [hcur] at this
    exact hid (Option.some.inj this).symm

/-- Nulling the completion handle is sound once nothing is live. -/
theorem inv_clearCurrentLLM {s : SessionState} (hi : Inv s)
    (hnl : ∀ st ∈ s.llmStreams, ¬ LiveLLM st) :
    Inv { s with currentLLMStream := none } := by
  constructor
  · exact hi.llmIdsLt
  · exact hi.ttsIdsLt
  · exact hi.llmIdsNodup
  · exact hi.ttsIdsNodup
  · intro st hmem hlive
    exact absurd hlive (hnl st hmem)
  · exact hi.liveCurT
  · exact hi.texts
  · exact hi.noBoth
  · intro j hj
    exact Option.noConfusion hj

/-- Nulling both handles is sound once nothing is live on either side. -/
theorem inv_clearCurrents {s : SessionState} (hi : Inv s)
    (hnl : ∀ st ∈ s.llmStreams, ¬ LiveLLM st)
    (hnt : ∀ tt ∈ s.ttsStreams, ¬ LiveTTS tt) :
    Inv { s with currentLLMStream := none, currentTTSStream := none } := by
  constructor
  · exact hi.llmIdsLt
  · exact hi.ttsIdsLt
  · exact hi.llmIdsNodup
  · exact hi.ttsIdsNodup
  · intro st hmem hlive
    exact absurd hlive (hnl st hmem)
  · intro tt hmem hlive
    exact absurd hlive (hnt tt hmem)
  · exact hi.texts
  · exact hi.noBoth
  · intro j hj
    exact Option.noConfusion hj

/-- Nulling the synthesis handle is sound once no synthesis is live. -/
theorem inv_clearCurrentTTS {s : SessionState} (hi : Inv s)
    (hnt : ∀ tt ∈ s.ttsStreams, ¬ LiveTTS tt) :
    Inv { s with currentTTSStream := none } := by
  constructor
  · exact hi.llmIdsLt
  · exact hi.ttsIdsLt
  · exact hi.llmIdsNodup
  · exact hi.ttsIdsNodup
  · exact hi.liveCur
  · intro tt hmem hlive
    exact absurd hlive (hnt tt hmem)
  · exact hi.texts
  · exact hi.noBoth
  · exact hi.curIn

/-- Allocating a fresh synthesis handle is sound once nothing is live. -/
theorem inv_pushTTS {s : SessionState} (hi : Inv s)
    (hnl : ∀ st ∈ s.llmStreams, ¬ LiveLLM st)
    (hnt : ∀ tt ∈ s.ttsStreams, ¬ LiveTTS tt) :
    Inv { s with
      ttsStreams := s.ttsStreams ++ [⟨s.nextStreamId, false, false⟩],
      currentTTSStream := some s.nextStreamId,
      nextStreamId := s.nextStreamId + 1 } := by
  constructor
  · intro st hmem
    have := hi.llmIdsLt st hmem
    simp only
    omega
  · intro tt hmem
    rcases List.mem_append.mp hmem with hold | hnew
    · have := hi.ttsIdsLt tt hold
      simp only
      omega
    · rw [List.mem_singleton.mp hnew]
      simp only
      omega
  · exact hi.llmIdsNodup
  · simp only [List.map_append, List.map_cons, List.map_nil]
    rw [List.nodup_append]
    refine ⟨hi.ttsIdsNodup, List.nodup_singleton _, ?_⟩
    intro a ha hb
    have hlta : a < s.nextStreamId := by
      obtain ⟨tt0, htt0, hid0⟩ := List.mem_map.mp ha
      rw [← hid0]
      exact hi.ttsIdsLt tt0 htt0
    have : a = s.nextStreamId := List.mem_singleton.mp hb
    omega
  · intro st hmem hlive
    exact absurd hlive (hnl st hmem)
  · intro tt hmem hlive
    rcases List.mem_append.mp hmem with hold | hnew
    · exact absurd hlive (hnt tt hold)
    · rw [List.mem_singleton.mp hnew]
  · exact hi.texts
  · intro st hmem hlive
    exact absurd hlive (hnl st hmem)
  · intro j hj
    exact hi.curIn j hj

theorem sendMessage_currentLLM (s : SessionState) (m : OutMsg) :
    (sendMessage s m).currentLLMStream = s.currentLLMStream := by
  unfold sendMessage
  split <;> rfl

theorem sendMessage_currentTTS (s : SessionState) (m : OutMsg) :
    (sendMessage s m).currentTTSStream = s.currentTTSStream := by
  unfold sendMessage
  split <;> rfl

theorem inv_checkForFinal {s : SessionState} (hi : Inv s) (snap : List Char) :
    Inv (checkForFinalTranscript s snap) := by
  unfold checkForFinalTranscript
  dsimp only
  split
  · have hP := inv_processUserMessage hi
      (match s.pendingTranscript with
        | some p => if trimStr p ≠ [] then trimStr p else snap
        | none => snap) false
    refine inv_of_coreEq ?_ hP
    exact ⟨rfl, rfl, rfl, rfl, rfl⟩
  · refine inv_of_coreEq ?_ hi
    exact ⟨rfl, rfl, rfl, rfl, rfl⟩

theorem inv_bufTickBody {s : SessionState} (hi : Inv s) (t : BufTimer) (now : Nat) :
    Inv (bufTickBody s t now) := by
  have hrm : Inv (removeBufTimer s t.id) := by
    refine inv_of_coreEq ?_ hi
    exact ⟨rfl, rfl, rfl, rfl, rfl⟩
  unfold bufTickBody
  dsimp only
  repeat' split
  all_goals first
    | (refine inv_of_coreEq ?_ hi; exact ⟨rfl, rfl, rfl, rfl, rfl⟩)
    | exact inv_checkForFinal hrm _

theorem inv_handleBufferTick {s : SessionState} (hi : Inv s) (tid now : Nat) :
    Inv (handleBufferTick s tid now) := by
  unfold handleBufferTick
  split
  · exact inv_bufTickBody hi _ now
  · exact hi

theorem coreEq_dgMarkFinal (s : SessionState) (b : Bool) :
    coreEq s (dgMarkFinal s b) := by
  unfold dgMarkFinal
  split <;> exact ⟨rfl, rfl, rfl, rfl, rfl⟩

theorem coreEq_dgStorePending (s : SessionState) (p : List Char) :
    coreEq s (dgStorePending s p) := ⟨rfl, rfl, rfl, rfl, rfl⟩

theorem coreEq_dgStamp (s : SessionState) (cur : List Char) (now : Nat) :
    coreEq s (dgStamp s cur now) := ⟨rfl, rfl, rfl, rfl, rfl⟩

theorem coreEq_dgUpdateFinalFlag (s : SessionState) (a b : Bool) :
    coreEq s (dgUpdateFinalFlag s a b) := by
  unfold dgUpdateFinalFlag
  repeat' split
  all_goals exact ⟨rfl, rfl, rfl, rfl, rfl⟩

theorem coreEq_dgCancelPendingCall (s : SessionState) (a b : Bool) :
    coreEq s (dgCancelPendingCall s a b) := by
  unfold dgCancelPendingCall
  repeat' split
  all_goals exact ⟨rfl, rfl, rfl, rfl, rfl⟩

theorem inv_handleDgTranscript {s : SessionState} (hi : Inv s)
    (text : List Char) (isFinal : Bool) (now : Nat) :
    Inv (handleDgTranscript s text isFinal now) := by
  unfold handleDgTranscript
  dsimp only
  split
  · exact hi
  · split
    · exact hi
    · split
      · refine inv_of_coreEq ?_ hi
        refine coreEq_trans (coreEq_trans (coreEq_trans (coreEq_trans
          (coreEq_trans (coreEq_dgMarkFinal s isFinal)
            (coreEq_dgStorePending _ _)) (coreEq_dgStamp _ _ now))
          (coreEq_dgUpdateFinalFlag _ _ _)) (coreEq_dgCancelPendingCall _ _ _))
          (coreEq_sendMessage _ _)
      · exact inv_of_coreEq (coreEq_trans (coreEq_dgMarkFinal s isFinal)
          (coreEq_dgStorePending _ _)) hi

theorem inv_handleSilenceTick {s : SessionState} (hi : Inv s) (now : Nat) :
    Inv (handleSilenceTick s now) := by
  unfold handleSilenceTick
  repeat' split
  all_goals first
    | exact hi
    | (refine inv_of_coreEq ?_ hi; exact ⟨rfl, rfl, rfl, rfl, rfl⟩)

theorem inv_handleAudioChunk {s : SessionState} (hi : Inv s) (now : Nat) :
    Inv (handleAudioChunk s now) := by
  unfold handleAudioChunk
  split
  · refine inv_of_coreEq ?_ hi
    exact ⟨rfl, rfl, rfl, rfl, rfl⟩
  · exact hi

theorem inv_handleLlmToken {s : SessionState} (hi : Inv s) (i : Nat)
    (tok : List Char) : Inv (handleLlmToken s i tok) := by
  unfold handleLlmToken
  repeat' split
  all_goals first
    | exact hi
    | exact inv_sendMessage hi _

theorem inv_handleTtsChunk {s : SessionState} (hi : Inv s) (i : Nat) :
    Inv (handleTtsChunk s i) := by
  unfold handleTtsChunk
  repeat' split
  all_goals first
    | exact hi
    | exact inv_sendMessage hi _

theorem inv_handleChatMessage {s : SessionState} (hi : Inv s) (text : List Char) :
    Inv (handleChatMessage s text) := by
  unfold handleChatMessage
  split
  · exact inv_processUserMessage hi text true
  · exact hi

theorem inv_handleStartRecording {s : SessionState} (hi : Inv s) :
    Inv (handleStartRecording s) := by
  unfold handleStartRecording startDeepgramStream
  dsimp only
  split
  · refine inv_of_coreEq (coreEq_trans ?_ (coreEq_sendMessage _ _)) hi
    exact ⟨rfl, rfl, rfl, rfl, rfl⟩
  · refine inv_of_coreEq (coreEq_trans ?_ (coreEq_sendMessage _ _)) hi
    exact ⟨rfl, rfl, rfl, rfl, rfl⟩

theorem inv_handleStopRecording {s : SessionState} (hi : Inv s) :
    Inv (handleStopRecording s) := by
  have hrec : Inv { s with isRecording := false } := by
    refine inv_of_coreEq ?_ hi
    exact ⟨rfl, rfl, rfl, rfl, rfl⟩
  unfold handleStopRecording stopDeepgramStream dgResetOnStop dgMarkStopped
  dsimp only
  repeat' split
  all_goals first
    | (refine inv_of_coreEq (coreEq_trans ?_ (coreEq_sendMessage _ _))
        (inv_finalizeTranscript hrec);
       exact ⟨rfl, rfl, rfl, rfl, rfl⟩)
    | (refine inv_of_coreEq (coreEq_trans ?_ (coreEq_sendMessage _ _)) hrec;
       exact ⟨rfl, rfl, rfl, rfl, rfl⟩)

/-- `cancel()` without nulling the handle: the invariant holds and nothing
stays live on the completion side. -/
theorem inv_cancelLLMKeep {s : SessionState} (hi : Inv s) :
    Inv (cancelLLMKeep s) ∧ (∀ st ∈ (cancelLLMKeep s).llmStreams, ¬ LiveLLM st) ∧
      (cancelLLMKeep s).ttsStreams = s.ttsStreams ∧
      (cancelLLMKeep s).currentTTSStream = s.currentTTSStream := by
  unfold cancelLLMKeep
  cases hc : s.currentLLMStream with
  | none =>
    dsimp only
    refine ⟨hi, ?_, rfl, rfl⟩
    intro st hmem hlive
    have := hi.liveCur st hmem hlive
    rw [hc] at this
    exact Option.noConfusion this
  | some i =>
    dsimp only
    refine ⟨?_, ?_, rfl, rfl⟩
    · have h := inv_mapLLM hi (cancelAtLLM i) (cancelAtLLM_id i)
        (cancelAtLLM_userText i) (cancelAtLLM_mono i)
      rw [hc] at h
      exact h
    · exact deadAll_mapLLM hi hc (fun st0 h => cancelAtLLM_dead_of_eq h)
        (fun st0 h => cancelAtLLM_eq_of_ne h)

theorem cancelAtTTS_ended (i : Nat) (tt : TTSStream) :
    (cancelAtTTS i tt).ended = tt.ended := by
  unfold cancelAtTTS
  split <;> rfl

theorem inv_cancelTTSKeep {s : SessionState} (hi : Inv s) :
    Inv (cancelTTSKeep s) ∧ (∀ tt ∈ (cancelTTSKeep s).ttsStreams, ¬ LiveTTS tt) ∧
      (cancelTTSKeep s).llmStreams = s.llmStreams ∧
      (cancelTTSKeep s).currentLLMStream = s.currentLLMStream := by
  unfold cancelTTSKeep
  cases hc : s.currentTTSStream with
  | none =>
    dsimp only
    refine ⟨hi, ?_, rfl, rfl⟩
    intro tt hmem hlive
    have := hi.liveCurT tt hmem hlive
    rw [hc] at this
    exact Option.noConfusion this
  | some i =>
    dsimp only
    refine ⟨?_, ?_, rfl, rfl⟩
    · have h := inv_mapTTS hi (cancelAtTTS i) (cancelAtTTS_id i) (cancelAtTTS_mono i)
      rw [hc] at h
      exact h
    · exact deadAll_mapTTS hi hc (fun tt0 h => cancelAtTTS_dead_of_eq h)
        (fun tt0 h => cancelAtTTS_eq_of_ne h)

theorem inv_handleInterrupt {s : SessionState} (hi : Inv s) :
    Inv (handleInterrupt s) := by
  unfold handleInterrupt
  dsimp only
  obtain ⟨hi1, hdl1, htts1, hct1⟩ := inv_cancelLLMKeep hi
  obtain ⟨hi2, hdt2, hllm2, hcl2⟩ := inv_cancelTTSKeep hi1
  have hdl2 : ∀ st ∈ (cancelTTSKeep (cancelLLMKeep s)).llmStreams, ¬ LiveLLM st := by
    rw [hllm2]
    exact hdl1
  exact inv_sendMessage (inv_clearCurrents hi2 hdl2 hdt2) _

theorem inv_handleSocketClose {s : SessionState} (hi : Inv s) :
    Inv (handleSocketClose s) := by
  unfold handleSocketClose
  dsimp only
  split
  · refine (inv_cancelTTSKeep (inv_cancelLLMKeep
      (inv_of_coreEq (?_ : coreEq s _) hi)).1).1
    exact ⟨rfl, rfl, rfl, rfl, rfl⟩
  · refine (inv_cancelTTSKeep (inv_cancelLLMKeep
      (inv_of_coreEq (?_ : coreEq s _) hi)).1).1
    exact ⟨rfl, rfl, rfl, rfl, rfl⟩

theorem inv_handleLlmComplete {s : SessionState} (hi : Inv s) (i : Nat)
    (fullText : List Char) : Inv (handleLlmComplete s i fullText) := by
  unfold handleLlmComplete
  cases hf : s.llmStreams.find? (fun st => st.id == i) with
  | none => exact hi
  | some st =>
    dsimp only
    split
    · exact hi
    · rename_i hnn
      have hlive : LiveLLM st := not_not.mp hnn
      have hmem : st ∈ s.llmStreams := List.mem_of_find?_eq_some hf
      have hid : st.id = i := by
        have := List.find?_some hf
        simpa using this
      have hcur : s.currentLLMStream = some i := by
        rw [← hid]
        exact hi.liveCur st hmem hlive
      have hc1 : coreEq s (pushHistory s Role.assistant fullText) :=
        ⟨rfl, rfl, rfl, rfl, rfl⟩
      have hi1 : Inv (pushHistory s Role.assistant fullText) :=
        inv_of_coreEq hc1 hi
      have hi2 : ∀ m, Inv (sendMessage (pushHistory s Role.assistant fullText) m) :=
        fun m => inv_sendMessage hi1 m
      have hcur2 : ∀ m, (sendMessage (pushHistory s Role.assistant fullText)
          m).currentLLMStream = some i := by
        intro m
        rw [sendMessage_currentLLM]
        exact hcur
      have hi3 : ∀ m, Inv (markLLMCompleted
          (sendMessage (pushHistory s Role.assistant fullText) m) i) :=
        fun m => inv_mapLLM (hi2 m) (completeAtLLM i) (completeAtLLM_id i)
          (completeAtLLM_userText i) (completeAtLLM_mono i)
      have hdead : ∀ m, ∀ st' ∈ (markLLMCompleted
          (sendMessage (pushHistory s Role.assistant fullText) m) i).llmStreams,
          ¬ LiveLLM st' :=
        fun m => deadAll_mapLLM (hi2 m) (hcur2 m)
          (fun st0 h => completeAtLLM_dead_of_eq h)
          (fun st0 h => completeAtLLM_eq_of_ne h)
      have hnt : ∀ m, ∀ tt ∈ (markLLMCompleted
          (sendMessage (pushHistory s Role.assistant fullText) m) i).ttsStreams,
          ¬ LiveTTS tt := by
        intro m
        show ∀ tt ∈ (sendMessage (pushHistory s Role.assistant fullText)
          m).ttsStreams, ¬ LiveTTS tt
        rw [sendMessage_ttsStreams]
        exact hi.noBoth st hmem hlive
      split
      · -- viaProcess
        split
        · refine inv_clearCurrentLLM (inv_sendMessage (hi3 _) _) ?_
          rw [sendMessage_llmStreams]
          exact hdead _
        · refine inv_clearCurrentLLM
            (inv_sendMessage (inv_sendMessage (hi3 _) _) _) ?_
          rw [sendMessage_llmStreams, sendMessage_llmStreams]
          exact hdead _
      · -- viaFinalize
        refine inv_pushTTS (inv_sendMessage (hi3 _) _) ?_ ?_
        · rw [sendMessage_llmStreams]
          exact hdead _
        · rw [sendMessage_ttsStreams]
          exact hnt _

theorem inv_handleLlmError {s : SessionState} (hi : Inv s) (i : Nat) :
    Inv (handleLlmError s i) := by
  unfold handleLlmError
  cases hf : s.llmStreams.find? (fun st => st.id == i) with
  | none => exact hi
  | some st =>
    dsimp only
    split
    · exact hi
    · rename_i hnn
      have hlive : LiveLLM st := not_not.mp hnn
      have hmem : st ∈ s.llmStreams := List.mem_of_find?_eq_some hf
      have hid : st.id = i := by
        have := List.find?_some hf
        simpa using this
      have hcur : s.currentLLMStream = some i := by
        rw [← hid]
        exact hi.liveCur st hmem hlive
      have hi1 : Inv (sendMessage s (OutMsg.status .errorState
          (some ErrCode.llmError))) := inv_sendMessage hi _
      have hcur1 : (sendMessage s (OutMsg.status .errorState
          (some ErrCode.llmError))).currentLLMStream = some i := by
        rw [sendMessage_currentLLM]
        exact hcur
      have hi2 : Inv (markLLMErrored (sendMessage s (OutMsg.status .errorState
          (some ErrCode.llmError))) i) :=
        inv_mapLLM hi1 (errorAtLLM i) (errorAtLLM_id i) (errorAtLLM_userText i)
          (errorAtLLM_mono i)
      have hdead : ∀ st' ∈ (markLLMErrored (sendMessage s (OutMsg.status .errorState
          (some ErrCode.llmError))) i).llmStreams, ¬ LiveLLM st' :=
        deadAll_mapLLM hi1 hcur1 (fun st0 h => errorAtLLM_dead_of_eq h)
          (fun st0 h => errorAtLLM_eq_of_ne h)
      split
      · exact inv_clearCurrentLLM hi2 hdead
      · exact hi2

theorem inv_handleTtsEnd {s : SessionState} (hi : Inv s) (i : Nat) :
    Inv (handleTtsEnd s i) := by
  unfold handleTtsEnd
  cases hf : s.ttsStreams.find? (fun tt => tt.id == i) with
  | none => exact hi
  | some tt =>
    dsimp only
    split
    · exact hi
    · rename_i hnn
      have hlive : LiveTTS tt := not_not.mp hnn
      have hmem : tt ∈ s.ttsStreams := List.mem_of_find?_eq_some hf
      have hid : tt.id = i := by
        have := List.find?_some hf
        simpa using this
      have hcur : s.currentTTSStream = some i := by
        rw [← hid]
        exact hi.liveCurT tt hmem hlive
      have hi1 : Inv (sendMessage s (OutMsg.status .idle none)) :=
        inv_sendMessage hi _
      have hcur1 : (sendMessage s (OutMsg.status .idle none)).currentTTSStream
          = some i := by
        rw [sendMessage_currentTTS]
        exact hcur
      have hi2 : Inv { sendMessage s (OutMsg.status .idle none) with
          ttsStreams := (sendMessage s (OutMsg.status .idle none)).ttsStreams.map
            (endAtTTS i) } :=
        inv_mapTTS hi1 (endAtTTS i) (endAtTTS_id i) (endAtTTS_mono i)
      have hdead : ∀ tt' ∈ (sendMessage s (OutMsg.status .idle none)).ttsStreams.map
          (endAtTTS i), ¬ LiveTTS tt' :=
        deadAll_mapTTS hi1 hcur1 (fun tt0 h => endAtTTS_dead_of_eq h)
          (fun tt0 h => endAtTTS_eq_of_ne h)
      exact inv_clearCurrentTTS hi2 hdead

theorem inv_step (e : Event) {s : SessionState} (hi : Inv s) : Inv (step e s) := by
  cases e with
  | msgStartRecording => exact inv_handleStartRecording hi
  | msgStopRecording => exact inv_handleStopRecording hi
  | msgAudioChunk now => exact inv_handleAudioChunk hi now
  | msgChat text => exact inv_handleChatMessage hi text
  | msgInterrupt => exact inv_handleInterrupt hi
  | msgUnknown => exact hi
  | dgTranscript text isFinal now => exact inv_handleDgTranscript hi text isFinal now
  | silenceTick now => exact inv_handleSilenceTick hi now
  | bufferTick tid now => exact inv_handleBufferTick hi tid now
  | llmToken i tok => exact inv_handleLlmToken hi i tok
  | llmComplete i fullText => exact inv_handleLlmComplete hi i fullText
  | llmError i => exact inv_handleLlmError hi i
  | ttsChunk i => exact inv_handleTtsChunk hi i
  | ttsEnd i => exact inv_handleTtsEnd hi i
  | socketClose => exact inv_handleSocketClose hi

theorem inv_initState : Inv initState := by
  constructor
  · intro st hmem
    exact absurd hmem (List.not_mem_nil st)
  · intro tt hmem
    exact absurd hmem (List.not_mem_nil tt)
  · exact List.nodup_nil
  · exact List.nodup_nil
  · intro st hmem
    exact absurd hmem (List.not_mem_nil st)
  · intro tt hmem
    exact absurd hmem (List.not_mem_nil tt)
  · intro st hmem
    exact absurd hmem (List.not_mem_nil st)
  · intro st hmem
    exact absurd hmem (List.not_mem_nil st)
  · intro j hj
    exact Option.noConfusion hj

theorem inv_runEvents (evs : List Event) {s : SessionState} (hi : Inv s) :
    Inv (runEvents evs s) := by
  induction evs generalizing s with
  | nil => exact hi
  | cons e rest ih => exact ih (inv_step e hi)

/-- Every reachable session state satisfies the structural invariant. -/
theorem reachable_inv {s : SessionState} (h : Reachable s) : Inv s := by
  obtain ⟨evs, rfl⟩ := h
  exact inv_runEvents evs inv_initState

theorem frame_refl (s : SessionState) : Frame s s := ⟨rfl, rfl, fun _ => rfl⟩

theorem frame_trans {s t u : SessionState} (h1 : Frame s t) (h2 : Frame t u) :
    Frame s u := by
  refine ⟨h2.wsOpen_eq.trans h1.wsOpen_eq, h2.lastFin_eq.trans h1.lastFin_eq, ?_⟩
  intro hc
  have ht : t.wsOpen = false := h1.wsOpen_eq.trans hc
  exact (h2.outbox_eq ht).trans (h1.outbox_eq hc)

theorem frame_sendMessage (s : SessionState) (m : OutMsg) :
    Frame s (sendMessage s m) := by
  unfold sendMessage
  split
  · rename_i hws
    refine ⟨rfl, rfl, ?_⟩
    intro hc
    rw [hws] at hc
    exact absurd hc (by simp)
  · exact frame_refl s

theorem frame_cancelLLM (s : SessionState) : Frame s (cancelLLM s) := by
  unfold cancelLLM
  cases s.currentLLMStream <;> exact ⟨rfl, rfl, fun _ => rfl⟩

theorem frame_cancelTTS (s : SessionState) : Frame s (cancelTTS s) := by
  unfold cancelTTS
  cases s.currentTTSStream <;> exact ⟨rfl, rfl, fun _ => rfl⟩

theorem frame_cancelLLMKeep (s : SessionState) : Frame s (cancelLLMKeep s) := by
  unfold cancelLLMKeep
  cases s.currentLLMStream <;> exact ⟨rfl, rfl, fun _ => rfl⟩

theorem frame_cancelTTSKeep (s : SessionState) : Frame s (cancelTTSKeep s) := by
  unfold cancelTTSKeep
  cases s.currentTTSStream <;> exact ⟨rfl, rfl, fun _ => rfl⟩

theorem frame_pushHistory (s : SessionState) (r : Role) (t : List Char) :
    Frame s (pushHistory s r t) := ⟨rfl, rfl, fun _ => rfl⟩

theorem frame_clearPending (s : SessionState) : Frame s (clearPending s) :=
  ⟨rfl, rfl, fun _ => rfl⟩

theorem frame_pushLLMStream (s : SessionState) (t : List Char) (c : Bool)
    (k : StreamKind) : Frame s (pushLLMStream s t c k) := ⟨rfl, rfl, fun _ => rfl⟩

theorem frame_clearLLMHandle (s : SessionState) : Frame s (clearLLMHandle s) :=
  ⟨rfl, rfl, fun _ => rfl⟩

theorem frame_clearHandles (s : SessionState) : Frame s (clearHandles s) :=
  ⟨rfl, rfl, fun _ => rfl⟩

theorem frame_pushTTSStream (s : SessionState) : Frame s (pushTTSStream s) :=
  ⟨rfl, rfl, fun _ => rfl⟩

theorem frame_endTTS (s : SessionState) (i : Nat) : Frame s (endTTS s i) :=
  ⟨rfl, rfl, fun _ => rfl⟩

theorem frame_markLLMCompleted (s : SessionState) (i : Nat) :
    Frame s (markLLMCompleted s i) := ⟨rfl, rfl, fun _ => rfl⟩

theorem frame_markLLMErrored (s : SessionState) (i : Nat) :
    Frame s (markLLMErrored s i) := ⟨rfl, rfl, fun _ => rfl⟩

theorem frame_dgStorePendingL (s : SessionState) (p : List Char) :
    Frame s (dgStorePending s p) := ⟨rfl, rfl, fun _ => rfl⟩

theorem frame_dgStampL (s : SessionState) (cur : List Char) (now : Nat) :
    Frame s (dgStamp s cur now) := ⟨rfl, rfl, fun _ => rfl⟩

theorem frame_removeBufTimer (s : SessionState) (tid : Nat) :
    Frame s (removeBufTimer s tid) := ⟨rfl, rfl, fun _ => rfl⟩

theorem frame_processUserMessage (s : SessionState) (t : List Char) (b : Bool) :
    Frame s (processUserMessage s t b) := by
  unfold processUserMessage
  split
  · exact frame_refl s
  · dsimp only
    exact frame_trans (frame_trans (frame_trans (frame_trans (frame_trans
      (frame_pushHistory s _ _) (frame_sendMessage _ _)) (frame_sendMessage _ _))
      (frame_cancelLLM _)) (frame_cancelTTS _)) (frame_pushLLMStream _ _ _ _)

theorem frame_checkForFinal (s : SessionState) (snap : List Char) :
    Frame s (checkForFinalTranscript s snap) := by
  unfold checkForFinalTranscript
  dsimp only
  split
  · exact frame_trans (frame_processUserMessage s _ false) ⟨rfl, rfl, fun _ => rfl⟩
  · exact ⟨rfl, rfl, fun _ => rfl⟩

theorem frame_bufTickBody (s : SessionState) (t : BufTimer) (now : Nat) :
    Frame s (bufTickBody s t now) := by
  unfold bufTickBody
  dsimp only
  repeat' split
  all_goals first
    | exact ⟨rfl, rfl, fun _ => rfl⟩
    | exact frame_trans (frame_removeBufTimer s t.id) (frame_checkForFinal _ _)

theorem frame_handleBufferTick (s : SessionState) (tid now : Nat) :
    Frame s (handleBufferTick s tid now) := by
  unfold handleBufferTick
  split
  · exact frame_bufTickBody s _ now
  · exact frame_refl s

theorem frame_dgMarkFinal (s : SessionState) (b : Bool) :
    Frame s (dgMarkFinal s b) := by
  unfold dgMarkFinal
  split <;> exact ⟨rfl, rfl, fun _ => rfl⟩

theorem frame_dgUpdateFinalFlag (s : SessionState) (a b : Bool) :
    Frame s (dgUpdateFinalFlag s a b) := by
  unfold dgUpdateFinalFlag
  repeat' split
  all_goals exact ⟨rfl, rfl, fun _ => rfl⟩

theorem frame_dgCancelPendingCall (s : SessionState) (a b : Bool) :
    Frame s (dgCancelPendingCall s a b) := by
  unfold dgCancelPendingCall
  repeat' split
  all_goals exact ⟨rfl, rfl, fun _ => rfl⟩

theorem frame_handleDgTranscript (s : SessionState) (text : List Char)
    (isFinal : Bool) (now : Nat) : Frame s (handleDgTranscript s text isFinal now) := by
  unfold handleDgTranscript
  dsimp only
  split
  · exact frame_refl s
  · split
    · exact frame_refl s
    · split
      · exact frame_trans (frame_trans (frame_trans (frame_trans (frame_trans
          (frame_dgMarkFinal s isFinal)
          (frame_dgStorePendingL _ _)) (frame_dgStampL _ _ now))
          (frame_dgUpdateFinalFlag _ _ _)) (frame_dgCancelPendingCall _ _ _))
          (frame_sendMessage _ _)
      · exact frame_trans (frame_dgMarkFinal s isFinal)
          (frame_dgStorePendingL _ _)

theorem frame_handleSilenceTick (s : SessionState) (now : Nat) :
    Frame s (handleSilenceTick s now) := by
  unfold handleSilenceTick
  repeat' split
  all_goals first
    | exact frame_refl s
    | exact ⟨rfl, rfl, fun _ => rfl⟩

theorem frame_handleAudioChunk (s : SessionState) (now : Nat) :
    Frame s (handleAudioChunk s now) := by
  unfold handleAudioChunk
  split
  · exact ⟨rfl, rfl, fun _ => rfl⟩
  · exact frame_refl s

theorem frame_handleChatMessage (s : SessionState) (text : List Char) :
    Frame s (handleChatMessage s text) := by
  unfold handleChatMessage
  split
  · exact frame_processUserMessage s text true
  · exact frame_refl s

theorem frame_handleInterrupt (s : SessionState) : Frame s (handleInterrupt s) := by
  unfold handleInterrupt
  dsimp only
  exact frame_trans (frame_trans (frame_trans (frame_cancelLLMKeep s)
    (frame_cancelTTSKeep _)) (frame_clearHandles _)) (frame_sendMessage _ _)

theorem frame_handleLlmToken (s : SessionState) (i : Nat) (tok : List Char) :
    Frame s (handleLlmToken s i tok) := by
  unfold handleLlmToken
  repeat' split
  all_goals first
    | exact frame_refl s
    | exact frame_sendMessage s _

theorem frame_handleLlmComplete (s : SessionState) (i : Nat)
    (fullText : List Char) : Frame s (handleLlmComplete s i fullText) := by
  unfold handleLlmComplete
  dsimp only
  repeat' split
  all_goals first
    | exact frame_refl s
    | exact frame_trans (frame_trans (frame_trans (frame_trans (frame_trans
        (frame_pushHistory s _ _) (frame_sendMessage _ _))
        (frame_markLLMCompleted _ i)) (frame_sendMessage _ _))
        (frame_sendMessage _ _)) (frame_clearLLMHandle _)
    | exact frame_trans (frame_trans (frame_trans (frame_trans
        (frame_pushHistory s _ _) (frame_sendMessage _ _))
        (frame_markLLMCompleted _ i)) (frame_sendMessage _ _))
        (frame_clearLLMHandle _)
    | exact frame_trans (frame_trans (frame_trans (frame_trans
        (frame_pushHistory s _ _) (frame_sendMessage _ _))
        (frame_markLLMCompleted _ i)) (frame_sendMessage _ _))
        (frame_pushTTSStream _)

theorem frame_handleLlmError (s : SessionState) (i : Nat) :
    Frame s (handleLlmError s i) := by
  unfold handleLlmError
  dsimp only
  repeat' split
  all_goals first
    | exact frame_refl s
    | exact frame_trans (frame_trans (frame_sendMessage s _)
        (frame_markLLMErrored _ i)) (frame_clearLLMHandle _)
    | exact frame_trans (frame_sendMessage s _) (frame_markLLMErrored _ i)

theorem frame_handleTtsChunk (s : SessionState) (i : Nat) :
    Frame s (handleTtsChunk s i) := by
  unfold handleTtsChunk
  repeat' split
  all_goals first
    | exact frame_refl s
    | exact frame_sendMessage s _

theorem frame_handleTtsEnd (s : SessionState) (i : Nat) :
    Frame s (handleTtsEnd s i) := by
  unfold handleTtsEnd
  dsimp only
  repeat' split
  all_goals first
    | exact frame_refl s
    | exact frame_trans (frame_sendMessage s _) (frame_endTTS _ i)

/-! ### The duplicate-finalize guard is clear at every event boundary -/

theorem handleSocketClose_lastFin (s : SessionState) :
    (handleSocketClose s).lastFinalizedTranscript = s.lastFinalizedTranscript := by
  unfold handleSocketClose
  dsimp only
  rw [(frame_cancelTTSKeep _).lastFin_eq, (frame_cancelLLMKeep _).lastFin_eq]
  split <;> rfl

theorem handleStartRecording_lastFin {s : SessionState}
    (h : s.lastFinalizedTranscript = none) :
    (handleStartRecording s).lastFinalizedTranscript = none := by
  unfold handleStartRecording startDeepgramStream
  rw [(frame_sendMessage _ _).lastFin_eq]
  split
  · exact h
  · rfl

theorem handleStopRecording_lastFin (s : SessionState) :
    (handleStopRecording s).lastFinalizedTranscript = none := by
  unfold handleStopRecording
  rw [(frame_sendMessage _ _).lastFin_eq]
  rfl

/-- `lastFinalizedTranscript` is `null` again by the time any callback
returns: `finalizeTranscript` sets it, but its only caller
(`stopDeepgramStream`) resets it before returning. -/
theorem step_lastFin (e : Event) {s : SessionState}
    (h : s.lastFinalizedTranscript = none) :
    (step e s).lastFinalizedTranscript = none := by
  cases e with
  | msgStartRecording => exact handleStartRecording_lastFin h
  | msgStopRecording => exact handleStopRecording_lastFin s
  | msgAudioChunk now => exact (frame_handleAudioChunk s now).lastFin_eq.trans h
  | msgChat text => exact (frame_handleChatMessage s text).lastFin_eq.trans h
  | msgInterrupt => exact (frame_handleInterrupt s).lastFin_eq.trans h
  | msgUnknown => exact h
  | dgTranscript text isFinal now =>
      exact (frame_handleDgTranscript s text isFinal now).lastFin_eq.trans h
  | silenceTick now => exact (frame_handleSilenceTick s now).lastFin_eq.trans h
  | bufferTick tid now => exact (frame_handleBufferTick s tid now).lastFin_eq.trans h
  | llmToken i tok => exact (frame_handleLlmToken s i tok).lastFin_eq.trans h
  | llmComplete i fullText =>
      exact (frame_handleLlmComplete s i fullText).lastFin_eq.trans h
  | llmError i => exact (frame_handleLlmError s i).lastFin_eq.trans h
  | ttsChunk i => exact (frame_handleTtsChunk s i).lastFin_eq.trans h
  | ttsEnd i => exact (frame_handleTtsEnd s i).lastFin_eq.trans h
  | socketClose => exact (handleSocketClose_lastFin s).trans h

theorem runEvents_lastFin (evs : List Event) {s : SessionState}
    (h : s.lastFinalizedTranscript = none) :
    (runEvents evs s).lastFinalizedTranscript = none := by
  induction evs generalizing s with
  | nil => exact h
  | cons e rest ih => exact ih (step_lastFin e h)

theorem reachable_lastFin {s : SessionState} (h : Reachable s) :
    s.lastFinalizedTranscript = none := by
  obtain ⟨evs, rfl⟩ := h
  exact runEvents_lastFin evs rfl

/-! ### No frame leaves the session once the socket is not open -/

theorem cancelLLMKeep_outbox (s : SessionState) :
    (cancelLLMKeep s).outbox = s.outbox := by
  unfold cancelLLMKeep
  cases s.currentLLMStream <;> rfl

theorem cancelTTSKeep_outbox (s : SessionState) :
    (cancelTTSKeep s).outbox = s.outbox := by
  unfold cancelTTSKeep
  cases s.currentTTSStream <;> rfl

theorem handleSocketClose_outbox (s : SessionState) :
    (handleSocketClose s).outbox = s.outbox := by
  unfold handleSocketClose
  dsimp only
  rw [cancelTTSKeep_outbox, cancelLLMKeep_outbox]
  split <;> rfl

/-- `wsOpen` and closed-socket silence for `finalizeTranscript`. -/
theorem frameW_finalizeTranscript (s : SessionState) :
    (finalizeTranscript s).wsOpen = s.wsOpen ∧
      (s.wsOpen = false → (finalizeTranscript s).outbox = s.outbox) := by
  unfold finalizeTranscript
  cases s.pendingTranscript with
  | none => exact ⟨rfl, fun _ => rfl⟩
  | some p =>
    dsimp only
    split
    · exact ⟨rfl, fun _ => rfl⟩
    · split
      · exact ⟨rfl, fun _ => rfl⟩
      · have h1 := frame_sendMessage (setLastFinalized s (trimStr p))
          (OutMsg.transcript (trimStr p) true)
        have h2 := frame_trans h1 (frame_sendMessage _
          (OutMsg.status .processing none))
        have h3 := frame_trans h2 (frame_pushHistory _ Role.user (trimStr p))
        have h4 := frame_trans h3 (frame_clearPending _)
        have h5 := frame_trans h4 (frame_cancelLLM _)
        have h6 := frame_trans h5 (frame_cancelTTS _)
        have h7 := frame_trans h6 (frame_sendMessage _
          (OutMsg.status .thinking none))
        have h8 := frame_trans h7 (frame_sendMessage _ (OutMsg.agentText [] true))
        have h9 := frame_trans h8 (frame_pushLLMStream _ (trimStr p) false
          .viaFinalize)
        exact ⟨h9.wsOpen_eq, fun hc => h9.outbox_eq hc⟩

theorem handleStartRecording_quiet {s : SessionState} (h : s.wsOpen = false) :
    (handleStartRecording s).outbox = s.outbox := by
  unfold handleStartRecording startDeepgramStream
  have hrec : ({ s with isRecording := true } : SessionState).wsOpen = false := h
  split
  · rw [(frame_sendMessage _ _).outbox_eq hrec]
  · have hws : (dgMarkStarted (startSilenceDetection (clearSilenceDetection
        (dgResetOnStart { s with isRecording := true })))).wsOpen = false := h
    rw [(frame_sendMessage _ _).outbox_eq hws]
    rfl

theorem stopDeepgramStream_quiet (s : SessionState) :
    (stopDeepgramStream s).wsOpen = s.wsOpen ∧
      (s.wsOpen = false → (stopDeepgramStream s).outbox = s.outbox) := by
  have hfin := frameW_finalizeTranscript s
  unfold stopDeepgramStream dgResetOnStop dgMarkStopped
  dsimp only
  repeat' split
  all_goals first
    | exact ⟨hfin.1, fun hc => hfin.2 hc⟩
    | exact ⟨rfl, fun _ => rfl⟩

theorem handleStopRecording_quiet {s : SessionState} (h : s.wsOpen = false) :
    (handleStopRecording s).outbox = s.outbox := by
  unfold handleStopRecording
  have hq := stopDeepgramStream_quiet { s with isRecording := false }
  have hws : (stopDeepgramStream { s with isRecording := false }).wsOpen = false := by
    rw [hq.1]
    exact h
  rw [(frame_sendMessage _ _).outbox_eq hws]
  exact hq.2 h

theorem deadId_eq {s s' : SessionState} {i : Nat}
    (hl : s'.llmStreams = s.llmStreams) (hn : s.nextStreamId ≤ s'.nextStreamId)
    (h : DeadIdHigh s i) : DeadIdHigh s' i := by
  refine ⟨Nat.lt_of_lt_of_le h.1 hn, ?_⟩
  rw [hl]
  exact h.2

theorem sendMessage_nextId (s : SessionState) (m : OutMsg) :
    (sendMessage s m).nextStreamId = s.nextStreamId := by
  unfold sendMessage
  split <;> rfl

theorem cancelTTS_nextId (s : SessionState) :
    (cancelTTS s).nextStreamId = s.nextStreamId := by
  unfold cancelTTS
  cases s.currentTTSStream <;> rfl

theorem cancelTTSKeep_llmStreams (s : SessionState) :
    (cancelTTSKeep s).llmStreams = s.llmStreams := by
  unfold cancelTTSKeep
  cases s.currentTTSStream <;> rfl

theorem cancelTTSKeep_nextId (s : SessionState) :
    (cancelTTSKeep s).nextStreamId = s.nextStreamId := by
  unfold cancelTTSKeep
  cases s.currentTTSStream <;> rfl

theorem deadId_sendMessage {s : SessionState} {i : Nat} (m : OutMsg)
    (h : DeadIdHigh s i) : DeadIdHigh (sendMessage s m) i :=
  deadId_eq (sendMessage_llmStreams s m) (Nat.le_of_eq (sendMessage_nextId s m).symm) h

theorem deadId_cancelTTS {s : SessionState} {i : Nat}
    (h : DeadIdHigh s i) : DeadIdHigh (cancelTTS s) i :=
  deadId_eq (cancelTTS_llmStreams s) (Nat.le_of_eq (cancelTTS_nextId s).symm) h

theorem deadId_cancelTTSKeep {s : SessionState} {i : Nat}
    (h : DeadIdHigh s i) : DeadIdHigh (cancelTTSKeep s) i :=
  deadId_eq (cancelTTSKeep_llmStreams s) (Nat.le_of_eq (cancelTTSKeep_nextId s).symm) h

theorem deadId_map {s : SessionState} {i : Nat} (f : LLMStream → LLMStream)
    (hid : ∀ st, (f st).id = st.id)
    (hdm : ∀ st, ¬ LiveLLM st → ¬ LiveLLM (f st)) (h : DeadIdHigh s i) :
    DeadIdHigh { s with llmStreams := s.llmStreams.map f } i := by
  refine ⟨h.1, ?_⟩
  intro st' hmem' hid'
  obtain ⟨st0, hmem0, heq0⟩ := List.mem_map.mp hmem'
  have hid0 : st0.id = i := by
    rw [← hid st0, heq0]
    exact hid'
  rw [← heq0]
  exact hdm st0 (h.2 st0 hmem0 hid0)

theorem deadId_cancelLLM {s : SessionState} {i : Nat}
    (h : DeadIdHigh s i) : DeadIdHigh (cancelLLM s) i := by
  unfold cancelLLM
  cases s.currentLLMStream with
  | none => exact h
  | some j =>
    dsimp only
    have := deadId_map (cancelAtLLM j) (cancelAtLLM_id j)
      (fun st hd hl => hd (cancelAtLLM_mono j st hl)) h
    exact ⟨this.1, this.2⟩

theorem deadId_cancelLLMKeep {s : SessionState} {i : Nat}
    (h : DeadIdHigh s i) : DeadIdHigh (cancelLLMKeep s) i := by
  unfold cancelLLMKeep
  cases s.currentLLMStream with
  | none => exact h
  | some j =>
    dsimp only
    exact deadId_map (cancelAtLLM j) (cancelAtLLM_id j)
      (fun st hd hl => hd (cancelAtLLM_mono j st hl)) h

theorem deadId_pushLLM {s : SessionState} {i : Nat} (t : List Char) (c : Bool)
    (k : StreamKind) (h : DeadIdHigh s i) : DeadIdHigh (pushLLMStream s t c k) i := by
  unfold pushLLMStream
  refine ⟨?_, ?_⟩
  · have := h.1
    simp only
    omega
  · intro st hmem hid
    rcases List.mem_append.mp hmem with hold | hnew
    · exact h.2 st hold hid
    · rw [List.mem_singleton.mp hnew] at hid
      have := h.1
      simp only at hid
      omega

theorem pushTTSStream_nextId (s : SessionState) :
    (pushTTSStream s).nextStreamId = s.nextStreamId + 1 := rfl

theorem deadId_pushTTS {s : SessionState} {i : Nat}
    (h : DeadIdHigh s i) : DeadIdHigh (pushTTSStream s) i := by
  refine ⟨?_, ?_⟩
  · show i < s.nextStreamId + 1
    exact Nat.lt_succ_of_lt h.1
  · show ∀ st ∈ s.llmStreams, st.id = i → ¬ LiveLLM st
    exact h.2

theorem deadId_dgMarkFinal {s : SessionState} {i : Nat} (b : Bool)
    (h : DeadIdHigh s i) : DeadIdHigh (dgMarkFinal s b) i := by
  unfold dgMarkFinal
  split
  · exact deadId_eq rfl (Nat.le_refl _) h
  · exact h

theorem deadId_dgUpdateFinalFlag {s : SessionState} {i : Nat} (a b : Bool)
    (h : DeadIdHigh s i) : DeadIdHigh (dgUpdateFinalFlag s a b) i := by
  unfold dgUpdateFinalFlag
  repeat' split
  all_goals first
    | exact h
    | exact deadId_eq rfl (Nat.le_refl _) h

theorem deadId_dgCancelPendingCall {s : SessionState} {i : Nat} (a b : Bool)
    (h : DeadIdHigh s i) : DeadIdHigh (dgCancelPendingCall s a b) i := by
  unfold dgCancelPendingCall
  repeat' split
  all_goals first
    | exact h
    | exact deadId_eq rfl (Nat.le_refl _) h

theorem deadId_processUserMessage {s : SessionState} {i : Nat} (t : List Char)
    (b : Bool) (h : DeadIdHigh s i) : DeadIdHigh (processUserMessage s t b) i := by
  unfold processUserMessage
  split
  · exact h
  · dsimp only
    exact deadId_pushLLM _ _ _ (deadId_cancelTTS (deadId_cancelLLM
      (deadId_sendMessage _ (deadId_sendMessage _
        (deadId_eq rfl (Nat.le_refl _) h)))))

theorem deadId_finalizeTranscript {s : SessionState} {i : Nat}
    (h : DeadIdHigh s i) : DeadIdHigh (finalizeTranscript s) i := by
  unfold finalizeTranscript
  cases s.pendingTranscript with
  | none => exact h
  | some p =>
    dsimp only
    split
    · exact h
    · split
      · exact h
      · exact deadId_pushLLM _ _ _ (deadId_sendMessage _ (deadId_sendMessage _
          (deadId_cancelTTS (deadId_cancelLLM (deadId_eq rfl (Nat.le_refl _)
            (deadId_sendMessage _ (deadId_sendMessage _
              (deadId_eq rfl (Nat.le_refl _) h))))))))

theorem deadId_checkForFinal {s : SessionState} {i : Nat} (snap : List Char)
    (h : DeadIdHigh s i) : DeadIdHigh (checkForFinalTranscript s snap) i := by
  unfold checkForFinalTranscript
  dsimp only
  split
  · exact deadId_eq rfl (Nat.le_refl _) (deadId_processUserMessage _ false h)
  · exact deadId_eq rfl (Nat.le_refl _) h

theorem deadId_step (e : Event) {s : SessionState} {i : Nat}
    (h : DeadIdHigh s i) : DeadIdHigh (step e s) i := by
  cases e with
  | msgStartRecording =>
    show DeadIdHigh (handleStartRecording s) i
    unfold handleStartRecording startDeepgramStream
    split
    · exact deadId_sendMessage _ (deadId_eq rfl (Nat.le_refl _) h)
    · exact deadId_sendMessage _ (deadId_eq rfl (Nat.le_refl _) h)
  | msgStopRecording =>
    show DeadIdHigh (handleStopRecording s) i
    unfold handleStopRecording stopDeepgramStream dgResetOnStop dgMarkStopped
    dsimp only
    repeat' split
    all_goals first
      | exact deadId_sendMessage _ (deadId_eq rfl (Nat.le_refl _)
          (deadId_finalizeTranscript (deadId_eq rfl (Nat.le_refl _) h)))
      | exact deadId_sendMessage _ (deadId_eq rfl (Nat.le_refl _) h)
  | msgAudioChunk now =>
    show DeadIdHigh (handleAudioChunk s now) i
    unfold handleAudioChunk
    split
    · exact deadId_eq rfl (Nat.le_refl _) h
    · exact h
  | msgChat text =>
    show DeadIdHigh (handleChatMessage s text) i
    unfold handleChatMessage
    split
    · exact deadId_processUserMessage _ true h
    · exact h
  | msgInterrupt =>
    show DeadIdHigh (handleInterrupt s) i
    unfold handleInterrupt
    dsimp only
    exact deadId_sendMessage _ (deadId_eq rfl (Nat.le_refl _)
      (deadId_cancelTTSKeep (deadId_cancelLLMKeep h)))
  | msgUnknown => exact h
  | dgTranscript text isFinal now =>
    show DeadIdHigh (handleDgTranscript s text isFinal now) i
    unfold handleDgTranscript
    dsimp only
    split
    · exact h
    · split
      · exact h
      · split
        · exact deadId_sendMessage _ (deadId_dgCancelPendingCall _ _
            (deadId_dgUpdateFinalFlag _ _ (deadId_eq rfl (Nat.le_refl _)
              (deadId_dgMarkFinal _ h))))
        · exact deadId_eq rfl (Nat.le_refl _) (deadId_dgMarkFinal _ h)
  | silenceTick now =>
    show DeadIdHigh (handleSilenceTick s now) i
    unfold handleSilenceTick
    repeat' split
    all_goals first
      | exact h
      | exact deadId_eq rfl (Nat.le_refl _) h
  | bufferTick tid now =>
    show DeadIdHigh (handleBufferTick s tid now) i
    unfold handleBufferTick bufTickBody
    dsimp only
    repeat' split
    all_goals first
      | exact h
      | exact deadId_eq rfl (Nat.le_refl _) h
      | exact deadId_checkForFinal _ (deadId_eq rfl (Nat.le_refl _) h)
  | llmToken j tok =>
    show DeadIdHigh (handleLlmToken s j tok) i
    unfold handleLlmToken
    repeat' split
    all_goals first
      | exact h
      | exact deadId_sendMessage _ h
  | llmComplete j fullText =>
    show DeadIdHigh (handleLlmComplete s j fullText) i
    unfold handleLlmComplete
    dsimp only
    repeat' split
    all_goals first
      | exact h
      | exact deadId_eq rfl (Nat.le_refl _) (deadId_sendMessage _
          (deadId_sendMessage _ (deadId_map (completeAtLLM j) (completeAtLLM_id j)
            (fun st hd hl => hd (completeAtLLM_mono j st hl))
            (deadId_sendMessage _ (deadId_eq rfl (Nat.le_refl _) h)))))
      | exact deadId_eq rfl (Nat.le_refl _) (deadId_sendMessage _
          (deadId_map (completeAtLLM j) (completeAtLLM_id j)
            (fun st hd hl => hd (completeAtLLM_mono j st hl))
            (deadId_sendMessage _ (deadId_eq rfl (Nat.le_refl _) h))))
      | exact deadId_pushTTS (deadId_sendMessage _
          (deadId_map (completeAtLLM j) (completeAtLLM_id j)
            (fun st hd hl => hd (completeAtLLM_mono j st hl))
            (deadId_sendMessage _ (deadId_eq rfl (Nat.le_refl _) h))))
  | llmError j =>
    show DeadIdHigh (handleLlmError s j) i
    unfold handleLlmError
    dsimp only
    repeat' split
    all_goals first
      | exact h
      | exact deadId_eq rfl (Nat.le_refl _) (deadId_map (errorAtLLM j)
          (errorAtLLM_id j) (fun st hd hl => hd (errorAtLLM_mono j st hl))
          (deadId_sendMessage _ h))
      | exact deadId_map (errorAtLLM j) (errorAtLLM_id j)
          (fun st hd hl => hd (errorAtLLM_mono j st hl)) (deadId_sendMessage _ h)
  | ttsChunk j =>
    show DeadIdHigh (handleTtsChunk s j) i
    unfold handleTtsChunk
    repeat' split
    all_goals first
      | exact h
      | exact deadId_sendMessage _ h
  | ttsEnd j =>
    show DeadIdHigh (handleTtsEnd s j) i
    unfold handleTtsEnd endTTS
    dsimp only
    repeat' split
    all_goals first
      | exact h
      | exact deadId_eq rfl (Nat.le_refl _) (deadId_sendMessage _ h)
  | socketClose =>
    show DeadIdHigh (handleSocketClose s) i
    unfold handleSocketClose
    dsimp only
    split
    all_goals exact deadId_cancelTTSKeep (deadId_cancelLLMKeep
      (deadId_eq rfl (Nat.le_refl _) h))

theorem deadId_runEvents (evs : List Event) {s : SessionState} {i : Nat}
    (h : DeadIdHigh s i) : DeadIdHigh (runEvents evs s) i := by
  induction evs generalizing s with
  | nil => exact h
  | cons e rest ih => exact ih (deadId_step e h)

/-- A token delivery for a dead stream id emits nothing (and changes
nothing): the abort semantics of `createOpenAIStream`. -/
theorem llmToken_dead {s : SessionState} {i : Nat} (tok : List Char)
    (h : DeadIdHigh s i) : handleLlmToken s i tok = s := by
  unfold handleLlmToken
  cases hf : s.llmStreams.find? (fun st => st.id == i) with
  | none => rfl
  | some st =>
    dsimp only
    have hmem : st ∈ s.llmStreams := List.mem_of_find?_eq_some hf
    have hid : st.id = i := by
      have := List.find?_some hf
      simpa using this
    have hdead := h.2 st hmem hid
    have hb : liveLLMB st = false := by
      cases hlb : liveLLMB st
      · rfl
      · exact absurd hlb hdead
    rw [hb]
    simp

/-! ### Further facts about the handler pipelines -/

theorem pushLLMStream_llmStreams (s : SessionState) (text : List Char)
    (cm : Bool) (k : StreamKind) :
    (pushLLMStream s text cm k).llmStreams =
      s.llmStreams ++ [⟨s.nextStreamId, text, cm, k, false, false, false⟩] := rfl

theorem cancelLLM_nextId (s : SessionState) :
    (cancelLLM s).nextStreamId = s.nextStreamId := by
  unfold cancelLLM
  cases s.currentLLMStream <;> rfl

theorem cancelLLM_idMap (s : SessionState) :
    (cancelLLM s).llmStreams.map LLMStream.id =
      s.llmStreams.map LLMStream.id := by
  unfold cancelLLM
  cases s.currentLLMStream with
  | none => rfl
  | some i =>
    dsimp only
    exact idMap_map_llm _ _ (cancelAtLLM_id i)

theorem cancelLLM_pending (s : SessionState) :
    (cancelLLM s).pendingTranscript = s.pendingTranscript := by
  unfold cancelLLM
  cases s.currentLLMStream <;> rfl

theorem cancelTTS_pending (s : SessionState) :
    (cancelTTS s).pendingTranscript = s.pendingTranscript := by
  unfold cancelTTS
  cases s.currentTTSStream <;> rfl

theorem cancelLLMKeep_idMap (s : SessionState) :
    (cancelLLMKeep s).llmStreams.map LLMStream.id =
      s.llmStreams.map LLMStream.id := by
  unfold cancelLLMKeep
  cases s.currentLLMStream with
  | none => rfl
  | some i =>
    dsimp only
    exact idMap_map_llm _ _ (cancelAtLLM_id i)

theorem cancelLLMKeep_pending (s : SessionState) :
    (cancelLLMKeep s).pendingTranscript = s.pendingTranscript := by
  unfold cancelLLMKeep
  cases s.currentLLMStream <;> rfl

theorem cancelTTSKeep_pending (s : SessionState) :
    (cancelTTSKeep s).pendingTranscript = s.pendingTranscript := by
  unfold cancelTTSKeep
  cases s.currentTTSStream <;> rfl

theorem sendMessage_pending (s : SessionState) (m : OutMsg) :
    (sendMessage s m).pendingTranscript = s.pendingTranscript := by
  unfold sendMessage
  split <;> rfl

theorem dgMarkStopped_llmStreams (s : SessionState) :
    (dgMarkStopped s).llmStreams = s.llmStreams := by
  unfold dgMarkStopped
  split <;> rfl

/-- After a submission of a non-empty user turn, the only completion stream
that can still fire callbacks is the freshly created one, and no synthesis
stream can. -/
theorem processUserMessage_liveFresh {s : SessionState} (hi : Inv s)
    (t : List Char) (b : Bool) (htne : ¬ trimStr t = []) :
    (∀ st ∈ (processUserMessage s t b).llmStreams,
        LiveLLM st → st.id = s.nextStreamId) ∧
    (∀ tt ∈ (processUserMessage s t b).ttsStreams, ¬ LiveTTS tt) := by
  unfold processUserMessage
  rw [if_neg htne]
  dsimp only
  have hcore0 : coreEq s (pushHistory s Role.user (trimStr t)) :=
    ⟨rfl, rfl, rfl, rfl, rfl⟩
  have hi0 : Inv (pushHistory s Role.user (trimStr t)) := inv_of_coreEq hcore0 hi
  have hi2 := inv_sendMessage (inv_sendMessage hi0 (OutMsg.status .thinking none))
    (OutMsg.agentText [] true)
  obtain ⟨hiA, hdeadL, _, _, hnA⟩ := inv_cancelLLM hi2
  obtain ⟨hiB, hdeadT, hLeq, _, hnB⟩ := inv_cancelTTS hiA
  constructor
  · intro st hmem hlive
    rw [pushLLMStream_llmStreams] at hmem
    rcases List.mem_append.mp hmem with hold | hnew
    · rw [hLeq] at hold
      exact absurd hlive (hdeadL st hold)
    · rw [List.mem_singleton.mp hnew]
      show (cancelTTS (cancelLLM (sendMessage (sendMessage
        (pushHistory s Role.user (trimStr t)) (OutMsg.status .thinking none))
        (OutMsg.agentText [] true)))).nextStreamId = s.nextStreamId
      rw [hnB, hnA, sendMessage_nextId, sendMessage_nextId]
      rfl
  · intro tt hmem
    exact hdeadT tt hmem

/-- `finalizeTranscript` on a state with a fresh non-empty pending transcript
creates exactly one new completion stream, carrying the trimmed transcript,
and clears the pending transcript. -/
theorem finalizeTranscript_submits {s : SessionState} {p : List Char}
    (hp : s.pendingTranscript = some p) (ht : ¬ trimStr p = [])
    (hlf : s.lastFinalizedTranscript = none) :
    (finalizeTranscript s).llmStreams.map LLMStream.id =
        s.llmStreams.map LLMStream.id ++ [s.nextStreamId] ∧
      (⟨s.nextStreamId, trimStr p, false, StreamKind.viaFinalize,
        false, false, false⟩ : LLMStream) ∈ (finalizeTranscript s).llmStreams ∧
      (finalizeTranscript s).pendingTranscript = none := by
  unfold finalizeTranscript
  rw [hp]
  dsimp only
  rw [if_neg ht, hlf, if_neg (fun hcc => Option.noConfusion hcc)]
  refine ⟨?_, ?_, ?_⟩
  · simp only [pushLLMStream_llmStreams, List.map_append, List.map_cons,
      List.map_nil, sendMessage_llmStreams, cancelTTS_llmStreams,
      cancelLLM_idMap, clearPending, pushHistory, setLastFinalized,
      sendMessage_nextId, cancelTTS_nextId, cancelLLM_nextId]
  · rw [pushLLMStream_llmStreams]
    refine List.mem_append_right _ (List.mem_singleton.mpr ?_)
    simp only [sendMessage_nextId, cancelTTS_nextId, cancelLLM_nextId,
      clearPending, pushHistory, setLastFinalized]
  · show (sendMessage (sendMessage (cancelTTS (cancelLLM (clearPending _)))
        (OutMsg.status .thinking none)) (OutMsg.agentText [] true)).pendingTranscript = none
    rw [sendMessage_pending, sendMessage_pending, cancelTTS_pending,
      cancelLLM_pending]
    rfl

/-- An `interrupt` leaves every completion stream carrying the interrupted
handle's id dead. -/
theorem deadId_handleInterrupt {s : SessionState} {i : Nat} (hi : Inv s)
    (hc : s.currentLLMStream = some i) : DeadIdHigh (handleInterrupt s) i := by
  have hbase : DeadIdHigh (cancelLLMKeep s) i := by
    unfold cancelLLMKeep
    rw [hc]
    dsimp only
    constructor
    · show i < s.nextStreamId
      obtain ⟨st, hmem, hid⟩ := hi.curIn i hc
      have := hi.llmIdsLt st hmem
      omega
    · show ∀ st ∈ s.llmStreams.map (cancelAtLLM i), st.id = i → ¬ LiveLLM st
      intro st' hmem' hid'
      obtain ⟨st0, hmem0, heq0⟩ := List.mem_map.mp hmem'
      by_cases hid0 : st0.id = i
      · rw [← heq0]
        exact cancelAtLLM_dead_of_eq hid0
      · rw [cancelAtLLM_eq_of_ne hid0] at heq0
        rw [← heq0] at hid'
        exact absurd hid' hid0
  unfold handleInterrupt
  dsimp only
  exact deadId_sendMessage _ (deadId_eq rfl (Nat.le_refl _)
    (deadId_cancelTTSKeep hbase))

/-! ### The remaining claims (C1, C2, C4, C5, C6, C7, C10) -/

set_option maxRecDepth 16000 in
/-- Claim C1 (the code refutes it): the spec promises that a completed agent
response which is exactly the booking JSON — trimmed text beginning with an
opening brace and containing the `book_appointment` marker — is suppressed
from the `agent_text` stream.  In `src/websocket.js` the `onToken` callback
of `processUserMessage` forwards every token raw and no classification of
the completed response exists, so the raw booking JSON reaches the outbox as
an `agent_text` frame. -/
theorem booking_json_reaches_agent_text :
    (trimStr bookingJson).take 1 = ['\x7b'] ∧
    subOf ("book_appointment".toList) (lowerStr (trimStr bookingJson)) = true ∧
    OutMsg.agentText bookingJson false ∈ (runEvents c1Trace initState).outbox := by
  refine ⟨by decide, by decide, by decide⟩

/-- Claim C2 (the code refutes it): the spec requires every per-session
timer to be cancelled on disconnect and calls a leaked timer a defect.  The
`close` handler runs `clearSilenceDetection()`, which clears the 100 ms
endpointer interval but cannot reach the `bufferCheckInterval` locals of
`startSilenceDetection`, so a buffer sub-timer armed before the disconnect
is still alive after it. -/
theorem disconnect_leaks_buffer_timer :
    (runEvents c2Trace initState).wsOpen = false ∧
    (runEvents c2Trace initState).silenceCheckInterval = false ∧
    (runEvents c2Trace initState).bufferTimers.length = 1 := by
  refine ⟨by decide, by decide, by decide⟩

/-- Claim C4: in every reachable session state at most one completion handle
and at most one synthesis handle are live, and a submission of a non-empty
user turn leaves only the freshly created completion live and every
synthesis handle cancelled. -/
theorem at_most_one_active_completion (s : SessionState) (h : Reachable s) :
    (∀ st1 ∈ s.llmStreams, ∀ st2 ∈ s.llmStreams,
        LiveLLM st1 → LiveLLM st2 → st1.id = st2.id) ∧
    (∀ tt1 ∈ s.ttsStreams, ∀ tt2 ∈ s.ttsStreams,
        LiveTTS tt1 → LiveTTS tt2 → tt1.id = tt2.id) ∧
    (∀ t b, ¬ trimStr t = [] →
      (∀ st ∈ (processUserMessage s t b).llmStreams,
          LiveLLM st → st.id = s.nextStreamId) ∧
      (∀ tt ∈ (processUserMessage s t b).ttsStreams, ¬ LiveTTS tt)) := by
  have hi := reachable_inv h
  refine ⟨?_, ?_, ?_⟩
  · intro st1 h1 st2 h2 hl1 hl2
    have e1 := hi.liveCur st1 h1 hl1
    have e2 := hi.liveCur st2 h2 hl2
    rw [e1] at e2
    exact Option.some.inj e2
  · intro tt1 h1 tt2 h2 hl1 hl2
    have e1 := hi.liveCurT tt1 h1 hl1
    have e2 := hi.liveCurT tt2 h2 hl2
    rw [e1] at e2
    exact Option.some.inj e2
  · intro t b htne
    exact processUserMessage_liveFresh hi t b htne

/-- Witness for C4 after two chat turns. -/
theorem at_most_one_active_completion_witness :
    (⟨1, "again".toList, true, StreamKind.viaProcess,
        false, false, false⟩ : LLMStream).id =
      (⟨1, "again".toList, true, StreamKind.viaProcess,
        false, false, false⟩ : LLMStream).id :=
  (at_most_one_active_completion _ ⟨c4Trace, rfl⟩).1
    _ (by decide) _ (by decide) rfl rfl

/-- Claim C5: once an `interrupt` has cancelled the active completion, a late
token delivery for that completion — after any further activity whatsoever —
is dropped: it changes nothing, in particular it emits no `agent_text`
frame. -/
theorem interrupt_drops_late_tokens (s : SessionState) (h : Reachable s)
    (i : Nat) (hc : s.currentLLMStream = some i) (evs : List Event)
    (tok : List Char) :
    step (Event.llmToken i tok) (runEvents evs (step Event.msgInterrupt s)) =
      runEvents evs (step Event.msgInterrupt s) := by
  have hi := reachable_inv h
  have hd : DeadIdHigh (step Event.msgInterrupt s) i :=
    deadId_handleInterrupt hi hc
  exact llmToken_dead tok (deadId_runEvents evs hd)

/-- Witness for C5: a late token for the interrupted completion 0 is a
no-op. -/
theorem interrupt_drops_late_tokens_witness :
    step (Event.llmToken 0 ("late".toList))
        (runEvents [] (step Event.msgInterrupt (runEvents c5Trace initState))) =
      runEvents [] (step Event.msgInterrupt (runEvents c5Trace initState)) :=
  interrupt_drops_late_tokens _ ⟨c5Trace, rfl⟩ 0 (by decide) [] ("late".toList)

/-- Claim C6: the endpointer never submits an empty or all-whitespace turn:
every completion stream of a reachable state was started on a non-empty,
trimmed user text. -/
theorem no_empty_turn_submitted (s : SessionState) (h : Reachable s) :
    ∀ st ∈ s.llmStreams, st.userText ≠ [] ∧ trimStr st.userText = st.userText :=
  (reachable_inv h).texts

/-- Witness for C6 at the stream created by one chat turn. -/
theorem no_empty_turn_submitted_witness :
    (⟨0, "hi".toList, true, StreamKind.viaProcess,
        false, false, false⟩ : LLMStream).userText ≠ [] ∧
      trimStr (⟨0, "hi".toList, true, StreamKind.viaProcess,
        false, false, false⟩ : LLMStream).userText =
      (⟨0, "hi".toList, true, StreamKind.viaProcess,
        false, false, false⟩ : LLMStream).userText :=
  no_empty_turn_submitted _ ⟨c5Trace, rfl⟩ _ (by decide)

/-- Claim C7, amended: on `stop_recording` with a non-empty pending
transcript an immediate finalize is forced — a completion stream carrying
the trimmed transcript is created in the same step, bypassing the buffer
stages — but on disconnect no finalize occurs: the `close` handler creates
no stream and simply drops the pending transcript. -/
theorem stop_finalizes_close_does_not (s : SessionState) (h : Reachable s)
    (p : List Char) (hp : s.pendingTranscript = some p)
    (ht : ¬ trimStr p = []) :
    (step Event.msgStopRecording s).llmStreams.map LLMStream.id =
        s.llmStreams.map LLMStream.id ++ [s.nextStreamId] ∧
    (⟨s.nextStreamId, trimStr p, false, StreamKind.viaFinalize,
        false, false, false⟩ : LLMStream) ∈
      (step Event.msgStopRecording s).llmStreams ∧
    (step Event.msgStopRecording s).pendingTranscript = none ∧
    (step Event.socketClose s).llmStreams.map LLMStream.id =
        s.llmStreams.map LLMStream.id ∧
    (step Event.socketClose s).pendingTranscript = some p := by
  have hlf : s.lastFinalizedTranscript = none := reachable_lastFin h
  have hfin := @finalizeTranscript_submits { s with isRecording := false } p
    hp ht hlf
  have hstop : stopDeepgramStream { s with isRecording := false } =
      dgResetOnStop (dgMarkStopped (clearSilenceDetection
        (finalizeTranscript { s with isRecording := false }))) := by
    unfold stopDeepgramStream
    dsimp only
    rw [hp]
    dsimp only
    rw [if_pos ht]
  have hA : (step Event.msgStopRecording s).llmStreams =
      (finalizeTranscript { s with isRecording := false }).llmStreams := by
    show (sendMessage (stopDeepgramStream { s with isRecording := false })
        (OutMsg.status .idle none)).llmStreams = _
    rw [sendMessage_llmStreams, hstop]
    show (dgMarkStopped _).llmStreams = _
    rw [dgMarkStopped_llmStreams]
    rfl
  refine ⟨?_, ?_, ?_, ?_, ?_⟩
  · rw [hA]
    exact hfin.1
  · rw [hA]
    exact hfin.2.1
  · show (sendMessage (stopDeepgramStream { s with isRecording := false })
        (OutMsg.status .idle none)).pendingTranscript = none
    rw [sendMessage_pending, hstop]
    rfl
  · show (handleSocketClose s).llmStreams.map LLMStream.id =
      s.llmStreams.map LLMStream.id
    unfold handleSocketClose
    dsimp only
    rw [cancelTTSKeep_llmStreams, cancelLLMKeep_idMap]
    split <;> rfl
  · show (handleSocketClose s).pendingTranscript = some p
    unfold handleSocketClose
    dsimp only
    rw [cancelTTSKeep_pending, cancelLLMKeep_pending]
    split
    · exact hp
    · exact hp

/-- Witness for the amended C7 at a concrete recording session. -/
theorem stop_finalizes_close_does_not_witness :
    (step Event.msgStopRecording (runEvents c7Trace initState)).llmStreams.map
        LLMStream.id =
      (runEvents c7Trace initState).llmStreams.map LLMStream.id ++
        [(runEvents c7Trace initState).nextStreamId] ∧
    (⟨(runEvents c7Trace initState).nextStreamId, trimStr ("hello".toList),
        false, StreamKind.viaFinalize, false, false, false⟩ : LLMStream) ∈
      (step Event.msgStopRecording (runEvents c7Trace initState)).llmStreams ∧
    (step Event.msgStopRecording
        (runEvents c7Trace initState)).pendingTranscript = none ∧
    (step Event.socketClose (runEvents c7Trace initState)).llmStreams.map
        LLMStream.id =
      (runEvents c7Trace initState).llmStreams.map LLMStream.id ∧
    (step Event.socketClose (runEvents c7Trace initState)).pendingTranscript =
      some ("hello".toList) :=
  stop_finalizes_close_does_not _ ⟨c7Trace, rfl⟩ ("hello".toList)
    (by decide) (by decide)

/-- Counterexample to C7 as stated: a disconnect while the pending
transcript is non-empty forces no finalize — the session ends with no
completion stream ever created and the transcript still pending. -/
theorem close_discards_pending_transcript :
    (runEvents c7Trace initState).pendingTranscript = some ("hello".toList) ∧
    trimStr ("hello".toList) ≠ [] ∧
    (runEvents (c7Trace ++ [Event.socketClose]) initState).llmStreams.length
        = 0 ∧
    (runEvents (c7Trace ++ [Event.socketClose]) initState).pendingTranscript
        = some ("hello".toList) := by
  refine ⟨by decide, by decide, by decide, by decide⟩

/-- Claim C10: every outbound frame passes through `sendMessage`'s
`readyState === OPEN` guard, so once the socket is not open, no event — no
timer tick, late token, completion, synthesis callback or client message —
appends anything to the outbox. -/
theorem closed_socket_sends_nothing (e : Event) (s : SessionState)
    (h : s.wsOpen = false) : (step e s).outbox = s.outbox := by
  cases e with
  | msgStartRecording => exact handleStartRecording_quiet h
  | msgStopRecording => exact handleStopRecording_quiet h
  | msgAudioChunk now => exact (frame_handleAudioChunk s now).outbox_eq h
  | msgChat text => exact (frame_handleChatMessage s text).outbox_eq h
  | msgInterrupt => exact (frame_handleInterrupt s).outbox_eq h
  | msgUnknown => rfl
  | dgTranscript text isFinal now =>
    exact (frame_handleDgTranscript s text isFinal now).outbox_eq h
  | silenceTick now => exact (frame_handleSilenceTick s now).outbox_eq h
  | bufferTick tid now => exact (frame_handleBufferTick s tid now).outbox_eq h
  | llmToken i tok => exact (frame_handleLlmToken s i tok).outbox_eq h
  | llmComplete i fullText =>
    exact (frame_handleLlmComplete s i fullText).outbox_eq h
  | llmError i => exact (frame_handleLlmError s i).outbox_eq h
  | ttsChunk i => exact (frame_handleTtsChunk s i).outbox_eq h
  | ttsEnd i => exact (frame_handleTtsEnd s i).outbox_eq h
  | socketClose => exact handleSocketClose_outbox s

/-- Witness for C10: after the socket closed, a late token adds nothing to
the outbox. -/
theorem closed_socket_sends_nothing_witness :
    (runEvents [Event.socketClose] initState).wsOpen = false ∧
      (step (Event.llmToken 0 ("x".toList))
          (runEvents [Event.socketClose] initState)).outbox =
        (runEvents [Event.socketClose] initState).outbox :=
  ⟨by decide, closed_socket_sends_nothing _ _ (by decide)⟩

end VoiceAgent
